import Mathlib

/-!
Verification of the in-memory review store of ToxicSozo/GoDraw
(`internal/store/store.go`), shallowly embedded in Lean 4.

Go maps are embedded as association lists (`List (String × α)`) accessed
through `lookupKey`/`setKey`; the member set of a team (`map[string]struct{}`
in Go) is a duplicate-free `List String` maintained by `insertMember` and
`List.erase`.  Wall-clock times (`time.Now().UTC()`) are passed in as a `Nat`
argument; the store's random source is passed in as an explicit shuffle
function (for `rnd.Shuffle`) or a natural number reduced modulo the number of
candidates (for `rnd.Intn`).  Mutating operations return the resulting store
next to the Go return values, with every early-error return handing back the
store exactly as the Go code leaves it at that point.
-/

namespace GoDraw

/-- Go struct `User`. -/
structure User where
  id : String
  username : String
  teamName : String
  isActive : Bool
deriving DecidableEq, Repr

/-- Go struct `TeamMemberInput` (input payload of `CreateTeam`). -/
structure TeamMemberInput where
  userID : String
  username : String
  isActive : Bool
deriving DecidableEq, Repr

/-- Go struct `TeamMember` (element of the returned team view). -/
structure TeamMember where
  userID : String
  username : String
  isActive : Bool
deriving DecidableEq, Repr

/-- Go struct `Team` (returned team view). -/
structure Team where
  name : String
  members : List TeamMember
deriving DecidableEq, Repr

/-- Go struct `PullRequest`.  `createdAt`/`mergedAt` are abstract instants. -/
structure PullRequest where
  id : String
  name : String
  authorID : String
  status : String
  assignedReviewers : List String
  createdAt : Nat
  mergedAt : Option Nat
deriving DecidableEq, Repr

/-- Go struct `Store` (the `rand.Rand` source is externalized as arguments;
a `teamRecord` is embedded as its member-id set, keyed by the team name). -/
structure Store where
  teams : List (String × List String)
  users : List (String × User)
  prs : List (String × PullRequest)
deriving DecidableEq, Repr

/-- The sentinel errors of `internal/store/store.go`. -/
inductive StoreError where
  | teamExists
  | teamNotFound
  | userNotFound
  | pullRequestExists
  | pullRequestNotFound
  | pullRequestMerged
  | reviewerNotAssigned
  | noReplacementCandidate
deriving DecidableEq, Repr

/-- Reading a Go map: first binding of the key, if any. -/
def lookupKey : List (String × α) → String → Option α
  | [], _ => none
  | (k', v) :: rest, k => if k' = k then some v else lookupKey rest k

/-- Writing a Go map: replace the binding of the key, or append a fresh one. -/
def setKey : List (String × α) → String → α → List (String × α)
  | [], k, v => [(k, v)]
  | (k', v') :: rest, k, v =>
      if k' = k then (k, v) :: rest else (k', v') :: setKey rest k v

/-- Inserting into a Go `map[string]struct{}` used as a set. -/
def insertMember (mem : List String) (uid : String) : List String :=
  if uid ∈ mem then mem else mem ++ [uid]

/-- Go `store.New()` (modulo the externalized random source). -/
def Store.new : Store := ⟨[], [], []⟩

/-- Go `(*Store).upsertUserLocked`: create the user if absent, drop it from
its previous team's member set when it moves, then overwrite its fields. -/
def upsertUserLocked (s : Store) (id username teamName : String)
    (isActive : Bool) : User × Store :=
  let user : User :=
    match lookupKey s.users id with
    | some u => u
    | none => { id := id, username := "", teamName := "", isActive := false }
  let s1 : Store :=
    if user.teamName ≠ "" ∧ user.teamName ≠ teamName then
      match lookupKey s.teams user.teamName with
      | some oldMembers =>
          { s with teams := setKey s.teams user.teamName (oldMembers.erase user.id) }
      | none => s
    else s
  let user' : User :=
    { user with username := username, teamName := teamName, isActive := isActive }
  (user', { s1 with users := setKey s1.users id user' })

/-- One iteration of the member loop in Go `(*Store).CreateTeam`: skip empty
user ids, upsert the user, record it in the team's member set. -/
def addTeamMember (name : String) (s : Store) (m : TeamMemberInput) : Store :=
  if m.userID = "" then s
  else
    let step := upsertUserLocked s m.userID m.username name m.isActive
    match lookupKey step.2.teams name with
    | some mem =>
        { step.2 with teams := setKey step.2.teams name (insertMember mem step.1.id) }
    | none => step.2

/-- Go `(*Store).buildTeamLocked`: project the member-id set through the user
map (skipping dangling ids) and sort the view by user id. -/
def buildTeamLocked (s : Store) (name : String) (mem : List String) : Team :=
  let members : List TeamMember := mem.filterMap (fun mid =>
    match lookupKey s.users mid with
    | some u => some { userID := u.id, username := u.username, isActive := u.isActive }
    | none => none)
  { name := name, members := members.mergeSort (fun a b => decide (a.userID ≤ b.userID)) }

/-- Go `(*Store).CreateTeam`. -/
def CreateTeam (s : Store) (name : String) (members : List TeamMemberInput) :
    Except StoreError Team × Store :=
  match lookupKey s.teams name with
  | some _ => (.error .teamExists, s)
  | none =>
    let s1 : Store := { s with teams := setKey s.teams name [] }
    let s2 : Store := members.foldl (addTeamMember name) s1
    match lookupKey s2.teams name with
    | some mem => (.ok (buildTeamLocked s2 name mem), s2)
    | none => (.ok (buildTeamLocked s2 name []), s2)

/-- Go `(*Store).GetTeam`. -/
def GetTeam (s : Store) (name : String) : Except StoreError Team :=
  match lookupKey s.teams name with
  | some mem => .ok (buildTeamLocked s name mem)
  | none => .error .teamNotFound

/-- Go `(*Store).SetUserActive`. -/
def SetUserActive (s : Store) (userID : String) (isActive : Bool) :
    Except StoreError User × Store :=
  match lookupKey s.users userID with
  | none => (.error .userNotFound, s)
  | some u =>
    let u' : User := { u with isActive := isActive }
    (.ok u', { s with users := setKey s.users userID u' })

/-- Go `(*Store).GetUser`. -/
def GetUser (s : Store) (userID : String) : Except StoreError User :=
  match lookupKey s.users userID with
  | none => .error .userNotFound
  | some u => .ok u

/-- Go input struct `CreatePullRequestInput`. -/
structure CreatePullRequestInput where
  id : String
  name : String
  authorID : String
deriving DecidableEq, Repr

/-- The `user == nil \|\| !user.IsActive` test of the candidate loops. -/
def isActiveUser (s : Store) (mid : String) : Bool :=
  match lookupKey s.users mid with
  | some u => u.isActive
  | none => false

/-- The candidate pool built by Go `(*Store).pickReviewersLocked`: team
members other than the author whose user record is active. -/
def reviewerCandidates (s : Store) (mem : List String) (authorID : String) :
    List String :=
  mem.filter (fun mid => mid != authorID && isActiveUser s mid)

/-- Go `(*Store).pickReviewersLocked`; `shuffle` stands for `rnd.Shuffle`. -/
def pickReviewersLocked (s : Store) (mem : List String) (authorID : String)
    (shuffle : List String → List String) : List String :=
  let candidates := reviewerCandidates s mem authorID
  if candidates.length = 0 then []
  else
    let shuffled := shuffle candidates
    let limit := min 2 shuffled.length
    shuffled.take limit

/-- Go `(*Store).CreatePullRequest`; `now` stands for `time.Now().UTC()`. -/
def CreatePullRequest (s : Store) (input : CreatePullRequestInput) (now : Nat)
    (shuffle : List String → List String) : Except StoreError PullRequest × Store :=
  match lookupKey s.prs input.id with
  | some _ => (.error .pullRequestExists, s)
  | none =>
  match lookupKey s.users input.authorID with
  | none => (.error .userNotFound, s)
  | some author =>
  if author.teamName = "" then (.error .teamNotFound, s)
  else
  match lookupKey s.teams author.teamName with
  | none => (.error .teamNotFound, s)
  | some mem =>
    let reviewers := pickReviewersLocked s mem author.id shuffle
    let pr : PullRequest :=
      { id := input.id
        name := input.name
        authorID := author.id
        status := "OPEN"
        assignedReviewers := reviewers
        createdAt := now
        mergedAt := none }
    (.ok pr, { s with prs := setKey s.prs pr.id pr })

/-- Go `(*Store).GetPullRequest`. -/
def GetPullRequest (s : Store) (prID : String) : Except StoreError PullRequest :=
  match lookupKey s.prs prID with
  | none => .error .pullRequestNotFound
  | some pr => .ok pr

/-- Go `(*Store).MergePullRequest`; `now` stands for `time.Now().UTC()`. -/
def MergePullRequest (s : Store) (prID : String) (now : Nat) :
    Except StoreError PullRequest × Store :=
  match lookupKey s.prs prID with
  | none => (.error .pullRequestNotFound, s)
  | some pr =>
    if pr.status ≠ "MERGED" then
      let pr' : PullRequest :=
        { pr with
          status := "MERGED"
          mergedAt := match pr.mergedAt with
            | none => some now
            | some t => some t }
      (.ok pr', { s with prs := setKey s.prs prID pr' })
    else (.ok pr, s)

/-- Go struct `ReassignResult`. -/
structure ReassignResult where
  pr : PullRequest
  replacedBy : String
deriving DecidableEq, Repr

/-- Go `(*Store).pickReplacementCandidatesLocked`. -/
def pickReplacementCandidatesLocked (s : Store) (mem : List String)
    (authorID : String) (assigned : List String) (skip : String) : List String :=
  let assignedSet := assigned.filter (fun id => id != skip)
  mem.filter (fun mid =>
    mid != skip && mid != authorID && !(assignedSet.contains mid) && isActiveUser s mid)

/-- Go `(*Store).ReassignReviewer`; `pick` stands for the `rnd.Intn` draw
(reduced modulo the number of candidates). -/
def ReassignReviewer (s : Store) (prID oldReviewerID : String) (pick : Nat) :
    Except StoreError ReassignResult × Store :=
  match lookupKey s.prs prID with
  | none => (.error .pullRequestNotFound, s)
  | some pr =>
  if pr.status = "MERGED" then (.error .pullRequestMerged, s)
  else
  match pr.assignedReviewers.findIdx? (fun r => r == oldReviewerID) with
  | none => (.error .reviewerNotAssigned, s)
  | some index =>
  match lookupKey s.users oldReviewerID with
  | none => (.error .userNotFound, s)
  | some reviewer =>
  if reviewer.teamName = "" then (.error .teamNotFound, s)
  else
  match lookupKey s.teams reviewer.teamName with
  | none => (.error .teamNotFound, s)
  | some mem =>
    if (pickReplacementCandidatesLocked s mem pr.authorID pr.assignedReviewers
        oldReviewerID).length = 0 then
      (.error .noReplacementCandidate, s)
    else
      let candidates :=
        pickReplacementCandidatesLocked s mem pr.authorID pr.assignedReviewers oldReviewerID
      let replacement := candidates.getD (pick % candidates.length) ""
      let pr' : PullRequest :=
        { pr with assignedReviewers := pr.assignedReviewers.set index replacement }
      (.ok { pr := pr', replacedBy := replacement },
        { s with prs := setKey s.prs prID pr' })

/-- Go `(*Store).ListPullRequestsByReviewer`. -/
def ListPullRequestsByReviewer (s : Store) (userID : String) :
    Except StoreError (List PullRequest) :=
  match lookupKey s.users userID with
  | none => .error .userNotFound
  | some _ =>
    let result := (s.prs.map Prod.snd).filter
      (fun pr => pr.assignedReviewers.contains userID)
    .ok (result.mergeSort (fun a b => decide (a.id ≤ b.id)))

/-- The merged version of a pull request as `MergePullRequest` writes it at
instant `now` (status set, `mergedAt` stamped only when still unset). -/
def mergeStamp (pr : PullRequest) (now : Nat) : PullRequest :=
  { pr with
    status := "MERGED"
    mergedAt := match pr.mergedAt with
      | none => some now
      | some t => some t }

/-! ### The transition relation of the store -/

/-- One successful mutating store call, with arbitrary call parameters,
timestamp and random draw; the shuffle must be a permutation, as
`rand.Shuffle` is. -/
inductive Step : Store → Store → Prop where
  | createTeam (s : Store) (name : String) (members : List TeamMemberInput)
      (t : Team) (s' : Store)
      (h : CreateTeam s name members = (.ok t, s')) : Step s s'
  | setUserActive (s : Store) (uid : String) (b : Bool) (u : User) (s' : Store)
      (h : SetUserActive s uid b = (.ok u, s')) : Step s s'
  | createPullRequest (s : Store) (input : CreatePullRequestInput) (now : Nat)
      (shuffle : List String → List String) (pr : PullRequest) (s' : Store)
      (hs : ∀ l : List String, (shuffle l).Perm l)
      (h : CreatePullRequest s input now shuffle = (.ok pr, s')) : Step s s'
  | mergePullRequest (s : Store) (prID : String) (now : Nat) (pr : PullRequest)
      (s' : Store) (h : MergePullRequest s prID now = (.ok pr, s')) : Step s s'
  | reassignReviewer (s : Store) (prID old : String) (pick : Nat)
      (r : ReassignResult) (s' : Store)
      (h : ReassignReviewer s prID old pick = (.ok r, s')) : Step s s'

/-- States reachable from a given state by successful mutating calls. -/
def ReachableFrom (s s' : Store) : Prop := Relation.ReflTransGen Step s s'

/-- States reachable from a fresh store (`store.New()`). -/
def Reachable (s : Store) : Prop := ReachableFrom Store.new s

/-! ### Concrete stores used by the claim witnesses -/

/-- Five users in team `core`; `u3` is inactive, all others active. -/
def wUsers : List (String × User) :=
  [("u1", ⟨"u1", "a", "core", true⟩), ("u2", ⟨"u2", "b", "core", true⟩),
   ("u3", ⟨"u3", "c", "core", false⟩), ("u4", ⟨"u4", "d", "core", true⟩),
   ("u5", ⟨"u5", "e", "core", true⟩)]

/-- A store with one team `core` and no pull requests. -/
def wStore : Store := ⟨[("core", ["u1", "u2", "u3", "u4", "u5"])], wUsers, []⟩

/-- An open pull request authored by `u1`, reviewed by `u2` and `u4`. -/
def wPR : PullRequest := ⟨"pr1", "one", "u1", "OPEN", ["u2", "u4"], 5, none⟩

/-- `wStore` plus the open pull request `pr1`. -/
def wStorePR : Store :=
  ⟨[("core", ["u1", "u2", "u3", "u4", "u5"])], wUsers, [("pr1", wPR)]⟩

/-- `wStore` plus an already-merged pull request `pr1`. -/
def wStoreMerged : Store :=
  ⟨[("core", ["u1", "u2", "u3", "u4", "u5"])], wUsers,
   [("pr1", ⟨"pr1", "one", "u1", "MERGED", ["u2", "u4"], 5, some 7⟩)]⟩

/-- `wStorePR` after `pr1` is merged at instant 9. -/
def wStoreM9 : Store :=
  ⟨[("core", ["u1", "u2", "u3", "u4", "u5"])], wUsers,
   [("pr1", ⟨"pr1", "one", "u1", "MERGED", ["u2", "u4"], 5, some 9⟩)]⟩

/-- The pull request `CreatePullRequest` builds on `wStore` with the identity
shuffle. -/
def wPRone : PullRequest := ⟨"pr1", "one", "u1", "OPEN", ["u2", "u4"], 5, none⟩

/-- `wPR` after `u2` is replaced by `u5`. -/
def wPRr5 : PullRequest := ⟨"pr1", "one", "u1", "OPEN", ["u5", "u4"], 5, none⟩

/-- `wStorePR` after `ReassignReviewer` replaces `u2` by `u5` on `pr1`. -/
def wStoreR5 : Store :=
  ⟨[("core", ["u1", "u2", "u3", "u4", "u5"])], wUsers, [("pr1", wPRr5)]⟩

/-! ### Store invariants -/

/-- Every Go map key is bound at most once in its association list. -/
def KeysNodup (s : Store) : Prop :=
  (s.teams.map Prod.fst).Nodup ∧ (s.users.map Prod.fst).Nodup ∧
  (s.prs.map Prod.fst).Nodup

/-- Team member sets hold no duplicate user ids. -/
def MembersNodup (s : Store) : Prop := ∀ p ∈ s.teams, (p.2 : List String).Nodup

/-- Every user record's `ID` field equals its map key. -/
def UsersKeyed (s : Store) : Prop := ∀ p ∈ s.users, (p.2 : User).id = p.1

/-- Whether team `tname` exists and lists `uid` as a member. -/
def teamHasMember (s : Store) (tname uid : String) : Bool :=
  match lookupKey s.teams tname with
  | some mem => mem.contains uid
  | none => false

/-- Whether user `uid` exists and its team field is exactly `tname`. -/
def userInTeam (s : Store) (uid tname : String) : Bool :=
  match lookupKey s.users uid with
  | some u => u.teamName == tname
  | none => false

/-- Every user with a non-empty team field is a member of that (existing)
team. -/
def UserSide (s : Store) : Prop :=
  ∀ p ∈ s.users, (p.2 : User).teamName ≠ "" →
    teamHasMember s (p.2 : User).teamName p.1 = true

/-- Every team with a non-empty name lists only users whose team field names
it. -/
def TeamSide (s : Store) : Prop :=
  ∀ p ∈ s.teams, p.1 ≠ "" → ∀ uid ∈ (p.2 : List String),
    userInTeam s uid p.1 = true

/-- The spec's unrestricted team-side claim: every team (also one named by
the empty string) lists only users whose team field names it. -/
def ClaimTeamSide (s : Store) : Prop :=
  ∀ p ∈ s.teams, ∀ uid ∈ (p.2 : List String), userInTeam s uid p.1 = true

/-- The store invariant maintained by every operation. -/
def Inv (s : Store) : Prop :=
  KeysNodup s ∧ MembersNodup s ∧ UsersKeyed s ∧ UserSide s ∧ TeamSide s

instance (s : Store) : Decidable (KeysNodup s) := by
  unfold KeysNodup
  infer_instance

instance (s : Store) : Decidable (MembersNodup s) := by
  unfold MembersNodup
  infer_instance

instance (s : Store) : Decidable (UsersKeyed s) := by
  unfold UsersKeyed
  infer_instance

instance (s : Store) : Decidable (UserSide s) := by
  unfold UserSide
  infer_instance

instance (s : Store) : Decidable (TeamSide s) := by
  unfold TeamSide
  infer_instance

instance (s : Store) : Decidable (ClaimTeamSide s) := by
  unfold ClaimTeamSide
  infer_instance

instance (s : Store) : Decidable (Inv s) := by
  unfold Inv
  infer_instance

/-- The store after `CreateTeam("", [u1])` on a fresh store. -/
def cx1 : Store :=
  ⟨[("", ["u1"])], [("u1", ⟨"u1", "alice", "", true⟩)], []⟩

/-- The store after `CreateTeam("", [u1])` then `CreateTeam("T", [u1])` on a
fresh store: `u1` moved to team `T` but the empty-named team still lists
it. -/
def cx2 : Store :=
  ⟨[("", ["u1"]), ("T", ["u1"])], [("u1", ⟨"u1", "alice", "T", true⟩)], []⟩

/-- Store after `CreateTeam("A", [u1])` on a fresh store. -/
def wsA : Store := ⟨[("A", ["u1"])], [("u1", ⟨"u1", "n", "A", true⟩)], []⟩

/-- `wsA` after `CreateTeam("B", [u1])`: `u1` moved from `A` to `B`. -/
def wsB : Store :=
  ⟨[("A", []), ("B", ["u1"])], [("u1", ⟨"u1", "n", "B", true⟩)], []⟩

/-- Store after a `CreateTeam` on a fresh store whose member list repeats
`u1` (a first active entry, then a final inactive one). -/
def w10Store : Store :=
  ⟨[("core", ["u1", "u2"])],
   [("u1", ⟨"u1", "second", "core", false⟩),
    ("u2", ⟨"u2", "x", "core", true⟩)], []⟩

/-! ### Association-list lemmas -/

theorem lookupKey_setKey_self (l : List (String × α)) (k : String) (v : α) :
    lookupKey (setKey l k v) k = some v := by
  induction l with
  | nil => simp [setKey, lookupKey]
  | cons p rest ih =>
    obtain ⟨k', v'⟩ := p
    by_cases h : k' = k
    · simp [setKey, lookupKey, h]
    · simp [setKey, lookupKey, h, ih]

theorem lookupKey_setKey_ne (l : List (String × α)) (k k' : String) (v : α)
    (h : k' ≠ k) : lookupKey (setKey l k v) k' = lookupKey l k' := by
  have h' : k ≠ k' := Ne.symm h
  induction l with
  | nil => simp [setKey, lookupKey, h']
  | cons p rest ih =>
    obtain ⟨k₀, v₀⟩ := p
    by_cases h0 : k₀ = k
    · subst h0
      simp [setKey, lookupKey, h']
    · simp [setKey, lookupKey, h0, ih]

theorem lookupKey_mem {l : List (String × α)} {k : String} {v : α}
    (h : lookupKey l k = some v) : (k, v) ∈ l := by
  induction l with
  | nil => simp [lookupKey] at h
  | cons p rest ih =>
    obtain ⟨k₀, v₀⟩ := p
    by_cases h0 : k₀ = k
    · subst h0
      simp [lookupKey] at h
      simp [h]
    · simp [lookupKey, h0] at h
      exact List.mem_cons_of_mem _ (ih h)

theorem lookupKey_eq_none {l : List (String × α)} {k : String} :
    lookupKey l k = none ↔ k ∉ l.map Prod.fst := by
  induction l with
  | nil => simp [lookupKey]
  | cons p rest ih =>
    obtain ⟨k₀, v₀⟩ := p
    by_cases h0 : k₀ = k
    · subst h0
      simp [lookupKey]
    · simp [lookupKey, h0, ih, Ne.symm h0]

theorem mem_setKey {l : List (String × α)} {k : String} {v : α} {p : String × α}
    (h : p ∈ setKey l k v) : p = (k, v) ∨ p ∈ l := by
  induction l with
  | nil => simpa [setKey] using h
  | cons q rest ih =>
    obtain ⟨k₀, v₀⟩ := q
    by_cases h0 : k₀ = k
    · subst h0
      simp [setKey] at h
      rcases h with h | h
      · exact Or.inl h
      · exact Or.inr (List.mem_cons_of_mem _ h)
    · simp [setKey, h0] at h
      rcases h with h | h
      · exact Or.inr (by simp [h])
      · rcases ih h with h' | h'
        · exact Or.inl h'
        · exact Or.inr (List.mem_cons_of_mem _ h')

theorem keys_setKey_of_some {l : List (String × α)} {k : String} {w : α} (v : α)
    (h : lookupKey l k = some w) :
    (setKey l k v).map Prod.fst = l.map Prod.fst := by
  induction l with
  | nil => simp [lookupKey] at h
  | cons p rest ih =>
    obtain ⟨k₀, v₀⟩ := p
    by_cases h0 : k₀ = k
    · subst h0
      simp [setKey]
    · simp [lookupKey, h0] at h
      simp [setKey, h0, ih h]

theorem keys_setKey_of_none {l : List (String × α)} {k : String} (v : α)
    (h : lookupKey l k = none) :
    (setKey l k v).map Prod.fst = l.map Prod.fst ++ [k] := by
  induction l with
  | nil => simp [setKey]
  | cons p rest ih =>
    obtain ⟨k₀, v₀⟩ := p
    by_cases h0 : k₀ = k
    · subst h0
      simp [lookupKey] at h
    · simp [lookupKey, h0] at h
      simp [setKey, h0, ih h]

theorem keys_nodup_setKey {l : List (String × α)} {k : String} (v : α)
    (h : (l.map Prod.fst).Nodup) :
    ((setKey l k v).map Prod.fst).Nodup := by
  cases hk : lookupKey l k with
  | none =>
    rw [keys_setKey_of_none v hk]
    have hnotin : k ∉ l.map Prod.fst := lookupKey_eq_none.mp hk
    refine List.Nodup.append h (List.nodup_singleton k) ?_
    intro a ha ha'
    simp only [List.mem_singleton] at ha'
    exact hnotin (ha' ▸ ha)
  | some w => rw [keys_setKey_of_some v hk]; exact h

theorem mem_setKey_iff {l : List (String × α)} {k : String} {v : α} {p : String × α}
    (hnd : (l.map Prod.fst).Nodup) :
    p ∈ setKey l k v ↔ p = (k, v) ∨ (p ∈ l ∧ p.1 ≠ k) := by
  induction l with
  | nil => simp [setKey]
  | cons q rest ih =>
    obtain ⟨k₀, v₀⟩ := q
    simp only [List.map_cons, List.nodup_cons] at hnd
    obtain ⟨hk₀, hrest⟩ := hnd
    by_cases h0 : k₀ = k
    · subst h0
      have hset : setKey ((k₀, v₀) :: rest) k₀ v = (k₀, v) :: rest := by
        simp [setKey]
      rw [hset]
      constructor
      · intro hp
        rcases List.mem_cons.mp hp with h' | h'
        · exact Or.inl h'
        · refine Or.inr ⟨List.mem_cons_of_mem _ h', ?_⟩
          intro hpk
          exact hk₀ (hpk ▸ List.mem_map_of_mem Prod.fst h')
      · rintro (h' | ⟨hmem, hne⟩)
        · exact h' ▸ List.mem_cons_self _ _
        · rcases List.mem_cons.mp hmem with h' | h'
          · exact absurd (by rw [h']) hne
          · exact List.mem_cons_of_mem _ h'
    · have hset : setKey ((k₀, v₀) :: rest) k v = (k₀, v₀) :: setKey rest k v := by
        simp [setKey, h0]
      rw [hset]
      constructor
      · intro hp
        rcases List.mem_cons.mp hp with h' | h'
        · exact Or.inr ⟨h' ▸ List.mem_cons_self _ _, by rw [h']; exact h0⟩
        · rcases (ih hrest).mp h' with h'' | ⟨hmem, hne⟩
          · exact Or.inl h''
          · exact Or.inr ⟨List.mem_cons_of_mem _ hmem, hne⟩
      · rintro (h' | ⟨hmem, hne⟩)
        · exact List.mem_cons_of_mem _ ((ih hrest).mpr (Or.inl h'))
        · rcases List.mem_cons.mp hmem with h' | h'
          · exact h' ▸ List.mem_cons_self _ _
          · exact List.mem_cons_of_mem _ ((ih hrest).mpr (Or.inr ⟨h', hne⟩))

theorem mem_lookupKey {l : List (String × α)} {k : String} {v : α}
    (hnd : (l.map Prod.fst).Nodup) (h : (k, v) ∈ l) :
    lookupKey l k = some v := by
  induction l with
  | nil => simp at h
  | cons q rest ih =>
    obtain ⟨k₀, v₀⟩ := q
    simp only [List.map_cons, List.nodup_cons] at hnd
    obtain ⟨hk₀, hrest⟩ := hnd
    rcases List.mem_cons.mp h with h' | h'
    · injection h' with ha hb
      subst ha
      subst hb
      simp [lookupKey]
    · by_cases h0 : k₀ = k
      · subst h0
        exact absurd (List.mem_map_of_mem Prod.fst h') hk₀
      · simp [lookupKey, h0, ih hrest h']

/-! ### Member-set lemmas -/

theorem mem_insertMember {l : List String} {a x : String} :
    x ∈ insertMember l a ↔ x = a ∨ x ∈ l := by
  unfold insertMember
  by_cases h : a ∈ l
  · simp only [if_pos h]
    constructor
    · exact Or.inr
    · rintro (rfl | hx)
      · exact h
      · exact hx
  · simp [if_neg h, List.mem_append, or_comm]

theorem self_mem_insertMember (l : List String) (a : String) :
    a ∈ insertMember l a := mem_insertMember.mpr (Or.inl rfl)

theorem insertMember_nodup {l : List String} {a : String} (h : l.Nodup) :
    (insertMember l a).Nodup := by
  unfold insertMember
  by_cases ha : a ∈ l
  · simpa [if_pos ha]
  · simpa [if_neg ha, List.nodup_append] using ⟨h, ha⟩

/-! ### C7 — duplicate team name -/

/-- Helper: `CreateTeam` on a registered name fails before touching state. -/
theorem createTeam_dup_spec (s : Store) (name : String)
    (members : List TeamMemberInput) (mem : List String)
    (h : lookupKey s.teams name = some mem) :
    CreateTeam s name members = (.error .teamExists, s) := by
  unfold CreateTeam
  rw [h]

/-- C7: when a team named `name` is already registered, `CreateTeam` fails
with `TeamExists` for every `members` argument, and the store — in
particular the existing team's member set and every user record — is
returned exactly as it was before the call (no member upserts happen). -/
theorem createTeam_duplicate_rejected (s : Store) (name : String)
    (members : List TeamMemberInput) (mem : List String)
    (h : lookupKey s.teams name = some mem) :
    CreateTeam s name members = (.error .teamExists, s) :=
  createTeam_dup_spec s name members mem h

/-- Witness for C7 at a concrete store. -/
theorem createTeam_duplicate_rejected_witness :
    CreateTeam wStore "core" [⟨"u9", "z", true⟩] = (.error .teamExists, wStore) :=
  createTeam_duplicate_rejected wStore "core" [⟨"u9", "z", true⟩]
    ["u1", "u2", "u3", "u4", "u5"] (by decide)

/-! ### C6 — CreatePullRequest error precedence and success shape -/

/-- Helper: the full error/success contract of `CreatePullRequest`. -/
theorem createPR_spec (s : Store) (input : CreatePullRequestInput)
    (now : Nat) (shuffle : List String → List String) :
    ((lookupKey s.prs input.id).isSome →
      CreatePullRequest s input now shuffle = (.error .pullRequestExists, s)) ∧
    (lookupKey s.prs input.id = none → lookupKey s.users input.authorID = none →
      CreatePullRequest s input now shuffle = (.error .userNotFound, s)) ∧
    (∀ author, lookupKey s.prs input.id = none →
      lookupKey s.users input.authorID = some author →
      (author.teamName = "" ∨ lookupKey s.teams author.teamName = none) →
      CreatePullRequest s input now shuffle = (.error .teamNotFound, s)) ∧
    (∀ author mem, lookupKey s.prs input.id = none →
      lookupKey s.users input.authorID = some author →
      author.teamName ≠ "" → lookupKey s.teams author.teamName = some mem →
      ∃ pr s', CreatePullRequest s input now shuffle = (.ok pr, s') ∧
        pr.id = input.id ∧ pr.status = "OPEN" ∧ pr.createdAt = now ∧
        s' = { s with prs := setKey s.prs input.id pr } ∧
        lookupKey s'.prs input.id = some pr) ∧
    (∀ e s', CreatePullRequest s input now shuffle = (.error e, s') → s' = s) := by
  refine ⟨?_, ?_, ?_, ?_, ?_⟩
  · intro h
    obtain ⟨w, hw⟩ := Option.isSome_iff_exists.mp h
    unfold CreatePullRequest
    rw [hw]
  · intro h1 h2
    unfold CreatePullRequest
    rw [h1, h2]
  · intro author h1 h2 h3
    unfold CreatePullRequest
    rw [h1, h2]
    by_cases hteam : author.teamName = ""
    · simp [hteam]
    · rcases h3 with h3 | h3
      · exact absurd h3 hteam
      · simp [hteam, h3]
  · intro author mem h1 h2 hne h3
    unfold CreatePullRequest
    rw [h1, h2]
    simp only [if_neg hne, h3]
    exact ⟨_, _, rfl, rfl, rfl, rfl, rfl, lookupKey_setKey_self _ _ _⟩
  · intro e s' h
    unfold CreatePullRequest at h
    split at h
    · exact ((Prod.ext_iff.mp h).2).symm
    · split at h
      · exact ((Prod.ext_iff.mp h).2).symm
      · split at h
        · exact ((Prod.ext_iff.mp h).2).symm
        · split at h
          · exact ((Prod.ext_iff.mp h).2).symm
          · simp at h

/-- C6: `CreatePullRequest` fails with `PullRequestExists` when the id is
taken (whatever the author is), otherwise with `UserNotFound` when the
author is unknown, otherwise with `TeamNotFound` when the author's team
field is empty or dangling; otherwise it succeeds and stores the new pull
request with status `OPEN` and creation timestamp `now`; on every error the
store is returned unchanged. -/
theorem createPullRequest_error_precedence (s : Store)
    (input : CreatePullRequestInput) (now : Nat)
    (shuffle : List String → List String) :
    ((lookupKey s.prs input.id).isSome →
      CreatePullRequest s input now shuffle = (.error .pullRequestExists, s)) ∧
    (lookupKey s.prs input.id = none → lookupKey s.users input.authorID = none →
      CreatePullRequest s input now shuffle = (.error .userNotFound, s)) ∧
    (∀ author, lookupKey s.prs input.id = none →
      lookupKey s.users input.authorID = some author →
      (author.teamName = "" ∨ lookupKey s.teams author.teamName = none) →
      CreatePullRequest s input now shuffle = (.error .teamNotFound, s)) ∧
    (∀ author mem, lookupKey s.prs input.id = none →
      lookupKey s.users input.authorID = some author →
      author.teamName ≠ "" → lookupKey s.teams author.teamName = some mem →
      ∃ pr s', CreatePullRequest s input now shuffle = (.ok pr, s') ∧
        pr.id = input.id ∧ pr.status = "OPEN" ∧ pr.createdAt = now ∧
        s' = { s with prs := setKey s.prs input.id pr } ∧
        lookupKey s'.prs input.id = some pr) ∧
    (∀ e s', CreatePullRequest s input now shuffle = (.error e, s') → s' = s) :=
  createPR_spec s input now shuffle

/-- Witness for C6: a successful creation at a concrete store. -/
theorem createPullRequest_error_precedence_witness :
    ∃ pr s', CreatePullRequest wStore ⟨"pr1", "one", "u1"⟩ 5 id = (.ok pr, s') ∧
      pr.id = "pr1" ∧ pr.status = "OPEN" ∧ pr.createdAt = 5 ∧
      s' = { wStore with prs := setKey wStore.prs "pr1" pr } ∧
      lookupKey s'.prs "pr1" = some pr :=
  (createPullRequest_error_precedence wStore ⟨"pr1", "one", "u1"⟩ 5 id).2.2.2.1
    ⟨"u1", "a", "core", true⟩ ["u1", "u2", "u3", "u4", "u5"]
    (by decide) (by decide) (by decide) (by decide)

/-! ### C5 — ReassignReviewer on errors -/

/-- Helper: error behavior of `ReassignReviewer`. -/
theorem reassign_error_spec (s : Store) (prID old : String) (pick : Nat) :
    (∀ pr, lookupKey s.prs prID = some pr → pr.status = "MERGED" →
      ReassignReviewer s prID old pick = (.error .pullRequestMerged, s)) ∧
    (∀ e s', ReassignReviewer s prID old pick = (.error e, s') → s' = s) := by
  constructor
  · intro pr hpr hm
    unfold ReassignReviewer
    rw [hpr]
    simp [hm]
  · intro e s' h
    unfold ReassignReviewer at h
    split at h
    · exact ((Prod.ext_iff.mp h).2).symm
    · split at h
      · exact ((Prod.ext_iff.mp h).2).symm
      · split at h
        · exact ((Prod.ext_iff.mp h).2).symm
        · split at h
          · exact ((Prod.ext_iff.mp h).2).symm
          · split at h
            · exact ((Prod.ext_iff.mp h).2).symm
            · split at h
              · exact ((Prod.ext_iff.mp h).2).symm
              · split at h
                · exact ((Prod.ext_iff.mp h).2).symm
                · simp at h

/-- C5: `ReassignReviewer` on a merged pull request always fails with
`PullRequestMerged`, and whenever it returns any error the store it hands
back is exactly the store it was called on (so in particular the reviewer
list of every pull request is unchanged). -/
theorem reassignReviewer_error_leaves_store (s : Store) (prID old : String)
    (pick : Nat) :
    (∀ pr, lookupKey s.prs prID = some pr → pr.status = "MERGED" →
      ReassignReviewer s prID old pick = (.error .pullRequestMerged, s)) ∧
    (∀ e s', ReassignReviewer s prID old pick = (.error e, s') → s' = s) :=
  reassign_error_spec s prID old pick

/-- Witness for C5: reassigning on a concrete merged pull request. -/
theorem reassignReviewer_error_leaves_store_witness :
    ReassignReviewer wStoreMerged "pr1" "u2" 0 =
      (.error .pullRequestMerged, wStoreMerged) :=
  (reassignReviewer_error_leaves_store wStoreMerged "pr1" "u2" 0).1
    ⟨"pr1", "one", "u1", "MERGED", ["u2", "u4"], 5, some 7⟩ (by decide) (by decide)

/-! ### Structural lemmas about the mutating operations -/

/-- Full case description of `upsertUserLocked`. -/
theorem upsertUserLocked_spec (s : Store) (id un tn : String) (b : Bool) :
    ∃ user₀ : User,
      (lookupKey s.users id = some user₀ ∨
        (lookupKey s.users id = none ∧
          user₀ = { id := id, username := "", teamName := "", isActive := false })) ∧
      (upsertUserLocked s id un tn b).1 =
        { user₀ with username := un, teamName := tn, isActive := b } ∧
      (upsertUserLocked s id un tn b).2.users =
        setKey s.users id { user₀ with username := un, teamName := tn, isActive := b } ∧
      (upsertUserLocked s id un tn b).2.prs = s.prs ∧
      (((user₀.teamName = "" ∨ user₀.teamName = tn) ∨
          lookupKey s.teams user₀.teamName = none) →
        (upsertUserLocked s id un tn b).2.teams = s.teams) ∧
      (∀ oldMem, user₀.teamName ≠ "" → user₀.teamName ≠ tn →
        lookupKey s.teams user₀.teamName = some oldMem →
        (upsertUserLocked s id un tn b).2.teams =
          setKey s.teams user₀.teamName (oldMem.erase user₀.id)) := by
  cases hu : lookupKey s.users id with
  | some u =>
    refine ⟨u, Or.inl rfl, ?_⟩
    by_cases hc : u.teamName ≠ "" ∧ u.teamName ≠ tn
    · cases ht : lookupKey s.teams u.teamName with
      | some oldMem =>
        refine ⟨?_, ?_, ?_, ?_, ?_⟩
        · simp [upsertUserLocked, hu]
        · simp only [upsertUserLocked, hu]
          rw [if_pos hc, ht]
        · simp only [upsertUserLocked, hu]
          rw [if_pos hc, ht]
        · rintro ((h1 | h2) | h3)
          · exact absurd h1 hc.1
          · exact absurd h2 hc.2
          · simp at h3
        · intro oldMem' h1 h2 hsome
          injection hsome with hsome
          subst hsome
          simp only [upsertUserLocked, hu]
          rw [if_pos hc, ht]
      | none =>
        refine ⟨?_, ?_, ?_, ?_, ?_⟩
        · simp [upsertUserLocked, hu]
        · simp only [upsertUserLocked, hu]
          rw [if_pos hc, ht]
        · simp only [upsertUserLocked, hu]
          rw [if_pos hc, ht]
        · intro _
          simp only [upsertUserLocked, hu]
          rw [if_pos hc, ht]
        · intro oldMem' h1 h2 hsome
          simp at hsome
    · refine ⟨?_, ?_, ?_, ?_, ?_⟩
      · simp [upsertUserLocked, hu]
      · simp only [upsertUserLocked, hu]
        rw [if_neg hc]
      · simp only [upsertUserLocked, hu]
        rw [if_neg hc]
      · intro _
        simp only [upsertUserLocked, hu]
        rw [if_neg hc]
      · intro oldMem' h1 h2 _
        exact absurd ⟨h1, h2⟩ hc
  | none =>
    have hc : ¬((("" : String)) ≠ "" ∧ (("" : String)) ≠ tn) := by
      intro hcc
      exact hcc.1 rfl
    refine ⟨{ id := id, username := "", teamName := "", isActive := false },
      Or.inr ⟨rfl, rfl⟩, ?_, ?_, ?_, ?_, ?_⟩
    · simp [upsertUserLocked, hu]
    · simp only [upsertUserLocked, hu]
      rw [if_neg hc]
    · simp only [upsertUserLocked, hu]
      rw [if_neg hc]
    · intro _
      simp only [upsertUserLocked, hu]
      rw [if_neg hc]
    · intro oldMem' h1 _ _
      exact absurd rfl h1

/-- `upsertUserLocked` never touches the pull-request map. -/
theorem upsertUserLocked_prs (s : Store) (id un tn : String) (b : Bool) :
    (upsertUserLocked s id un tn b).2.prs = s.prs := by
  obtain ⟨u₀, _, _, _, hprs, _⟩ := upsertUserLocked_spec s id un tn b
  exact hprs

/-- `addTeamMember` never touches the pull-request map. -/
theorem addTeamMember_prs (name : String) (s : Store) (m : TeamMemberInput) :
    (addTeamMember name s m).prs = s.prs := by
  unfold addTeamMember
  split
  · rfl
  · dsimp only
    have hp := upsertUserLocked_prs s m.userID m.username name m.isActive
    cases hmm : lookupKey (upsertUserLocked s m.userID m.username name
        m.isActive).2.teams name <;> simp [hmm, hp]

/-- The member loop of `CreateTeam` never touches the pull-request map. -/
theorem foldl_addTeamMember_prs (name : String) :
    ∀ (ms : List TeamMemberInput) (s : Store),
      (ms.foldl (addTeamMember name) s).prs = s.prs
  | [], _ => rfl
  | m :: ms, s => by
    rw [List.foldl_cons, foldl_addTeamMember_prs name ms _, addTeamMember_prs]

/-- `CreateTeam` never touches the pull-request map. -/
theorem CreateTeam_prs {s : Store} {name : String} {members : List TeamMemberInput}
    {r : Except StoreError Team} {s' : Store}
    (h : CreateTeam s name members = (r, s')) : s'.prs = s.prs := by
  unfold CreateTeam at h
  cases hn : lookupKey s.teams name with
  | some mem => rw [hn] at h; cases h; rfl
  | none =>
    rw [hn] at h
    try dsimp only at h
    cases hm : lookupKey (members.foldl (addTeamMember name)
        { s with teams := setKey s.teams name [] }).teams name with
    | some mem =>
      rw [hm] at h
      cases h
      exact foldl_addTeamMember_prs name members _
    | none =>
      rw [hm] at h
      cases h
      exact foldl_addTeamMember_prs name members _

/-- `SetUserActive` touches only the user map. -/
theorem SetUserActive_state {s : Store} {uid : String} {b : Bool}
    {r : Except StoreError User} {s' : Store}
    (h : SetUserActive s uid b = (r, s')) :
    s'.teams = s.teams ∧ s'.prs = s.prs := by
  unfold SetUserActive at h
  split at h <;> (cases h; exact ⟨rfl, rfl⟩)

/-- `CreatePullRequest` touches only the pull-request map. -/
theorem CreatePullRequest_state {s : Store} {input : CreatePullRequestInput}
    {now : Nat} {shuffle : List String → List String}
    {r : Except StoreError PullRequest} {s' : Store}
    (h : CreatePullRequest s input now shuffle = (r, s')) :
    s'.teams = s.teams ∧ s'.users = s.users := by
  unfold CreatePullRequest at h
  split at h
  · cases h; exact ⟨rfl, rfl⟩
  · split at h
    · cases h; exact ⟨rfl, rfl⟩
    · split at h
      · cases h; exact ⟨rfl, rfl⟩
      · split at h
        · cases h; exact ⟨rfl, rfl⟩
        · cases h; exact ⟨rfl, rfl⟩

/-- `MergePullRequest` touches only the pull-request map. -/
theorem MergePullRequest_state {s : Store} {prID : String} {now : Nat}
    {r : Except StoreError PullRequest} {s' : Store}
    (h : MergePullRequest s prID now = (r, s')) :
    s'.teams = s.teams ∧ s'.users = s.users := by
  unfold MergePullRequest at h
  split at h
  · cases h; exact ⟨rfl, rfl⟩
  · split at h
    · cases h; exact ⟨rfl, rfl⟩
    · cases h; exact ⟨rfl, rfl⟩

/-- `ReassignReviewer` touches only the pull-request map. -/
theorem ReassignReviewer_state {s : Store} {prID old : String} {pick : Nat}
    {r : Except StoreError ReassignResult} {s' : Store}
    (h : ReassignReviewer s prID old pick = (r, s')) :
    s'.teams = s.teams ∧ s'.users = s.users := by
  unfold ReassignReviewer at h
  split at h
  · cases h; exact ⟨rfl, rfl⟩
  · split at h
    · cases h; exact ⟨rfl, rfl⟩
    · split at h
      · cases h; exact ⟨rfl, rfl⟩
      · split at h
        · cases h; exact ⟨rfl, rfl⟩
        · split at h
          · cases h; exact ⟨rfl, rfl⟩
          · split at h
            · cases h; exact ⟨rfl, rfl⟩
            · split at h
              · cases h; exact ⟨rfl, rfl⟩
              · cases h; exact ⟨rfl, rfl⟩

/-! ### Inversion lemmas for successful calls -/

/-- What a successful `CreatePullRequest` call implies. -/
theorem CreatePullRequest_ok_inv {s : Store} {input : CreatePullRequestInput}
    {now : Nat} {shuffle : List String → List String} {pr : PullRequest}
    {s' : Store} (h : CreatePullRequest s input now shuffle = (.ok pr, s')) :
    ∃ author mem, lookupKey s.prs input.id = none ∧
      lookupKey s.users input.authorID = some author ∧
      author.teamName ≠ "" ∧
      lookupKey s.teams author.teamName = some mem ∧
      pr = { id := input.id, name := input.name, authorID := author.id,
             status := "OPEN",
             assignedReviewers := pickReviewersLocked s mem author.id shuffle,
             createdAt := now, mergedAt := none } ∧
      s' = { s with prs := setKey s.prs input.id pr } := by
  unfold CreatePullRequest at h
  cases hid : lookupKey s.prs input.id with
  | some w => rw [hid] at h; simp at h
  | none =>
    rw [hid] at h
    cases hau : lookupKey s.users input.authorID with
    | none => rw [hau] at h; simp at h
    | some author =>
      rw [hau] at h
      try dsimp only at h
      by_cases hne : author.teamName = ""
      · rw [if_pos hne] at h; simp at h
      · rw [if_neg hne] at h
        cases hmem : lookupKey s.teams author.teamName with
        | none => rw [hmem] at h; simp at h
        | some mem =>
          rw [hmem] at h
          try dsimp only at h
          have h1 := congrArg Prod.fst h
          have h2 := congrArg Prod.snd h
          dsimp only at h1 h2
          injection h1 with h1
          exact ⟨author, mem, rfl, rfl, hne, hmem, h1.symm, by rw [← h2, ← h1]⟩

/-- What a successful `MergePullRequest` call implies. -/
theorem MergePullRequest_ok_inv {s : Store} {prID : String} {now : Nat}
    {pr : PullRequest} {s' : Store}
    (h : MergePullRequest s prID now = (.ok pr, s')) :
    ∃ pr₀, lookupKey s.prs prID = some pr₀ ∧
      ((pr₀.status ≠ "MERGED" ∧
        pr = { pr₀ with
               status := "MERGED"
               mergedAt := match pr₀.mergedAt with
                 | none => some now
                 | some t => some t } ∧
        s' = { s with prs := setKey s.prs prID pr }) ∨
       (pr₀.status = "MERGED" ∧ pr = pr₀ ∧ s' = s)) := by
  unfold MergePullRequest at h
  cases hpr : lookupKey s.prs prID with
  | none => rw [hpr] at h; simp at h
  | some pr₀ =>
    rw [hpr] at h
    try dsimp only at h
    by_cases hm : pr₀.status ≠ "MERGED"
    · rw [if_pos hm] at h
      have h1 := congrArg Prod.fst h
      have h2 := congrArg Prod.snd h
      dsimp only at h1 h2
      injection h1 with h1
      exact ⟨pr₀, rfl, Or.inl ⟨hm, h1.symm, by rw [← h2, ← h1]⟩⟩
    · rw [if_neg hm] at h
      have h1 := congrArg Prod.fst h
      have h2 := congrArg Prod.snd h
      dsimp only at h1 h2
      injection h1 with h1
      push_neg at hm
      exact ⟨pr₀, rfl, Or.inr ⟨hm, h1.symm, h2.symm⟩⟩

/-- What a successful `ReassignReviewer` call implies. -/
theorem ReassignReviewer_ok_inv {s : Store} {prID old : String} {pick : Nat}
    {r : ReassignResult} {s' : Store}
    (h : ReassignReviewer s prID old pick = (.ok r, s')) :
    ∃ pr index reviewer mem,
      lookupKey s.prs prID = some pr ∧
      pr.status ≠ "MERGED" ∧
      pr.assignedReviewers.findIdx? (fun x => x == old) = some index ∧
      lookupKey s.users old = some reviewer ∧
      reviewer.teamName ≠ "" ∧
      lookupKey s.teams reviewer.teamName = some mem ∧
      (pickReplacementCandidatesLocked s mem pr.authorID
        pr.assignedReviewers old).length ≠ 0 ∧
      r.replacedBy =
        (pickReplacementCandidatesLocked s mem pr.authorID
          pr.assignedReviewers old).getD
          (pick % (pickReplacementCandidatesLocked s mem pr.authorID
            pr.assignedReviewers old).length) "" ∧
      r.pr = { pr with
        assignedReviewers := pr.assignedReviewers.set index r.replacedBy } ∧
      s' = { s with prs := setKey s.prs prID r.pr } := by
  unfold ReassignReviewer at h
  cases hpr : lookupKey s.prs prID with
  | none => rw [hpr] at h; simp at h
  | some pr =>
    rw [hpr] at h
    try dsimp only at h
    by_cases hm : pr.status = "MERGED"
    · rw [if_pos hm] at h; simp at h
    · rw [if_neg hm] at h
      cases hidx : pr.assignedReviewers.findIdx? (fun x => x == old) with
      | none => rw [hidx] at h; simp at h
      | some index =>
        rw [hidx] at h
        try dsimp only at h
        cases hrev : lookupKey s.users old with
        | none => rw [hrev] at h; simp at h
        | some reviewer =>
          rw [hrev] at h
          try dsimp only at h
          by_cases hrt : reviewer.teamName = ""
          · rw [if_pos hrt] at h; simp at h
          · rw [if_neg hrt] at h
            cases hmem : lookupKey s.teams reviewer.teamName with
            | none => rw [hmem] at h; simp at h
            | some mem =>
              rw [hmem] at h
              try dsimp only at h
              by_cases hlen : (pickReplacementCandidatesLocked s mem pr.authorID
                  pr.assignedReviewers old).length = 0
              · rw [if_pos hlen] at h; simp at h
              · rw [if_neg hlen] at h
                try dsimp only at h
                have h1 := congrArg Prod.fst h
                have h2 := congrArg Prod.snd h
                dsimp only at h1 h2
                injection h1 with h1
                refine ⟨pr, index, reviewer, mem, rfl, hm, hidx, rfl, hrt, hmem,
                  hlen, ?_, ?_, ?_⟩
                · rw [← h1]
                · rw [← h1]
                · rw [← h2, ← h1]

/-- What a successful `SetUserActive` call implies. -/
theorem SetUserActive_ok_inv {s : Store} {uid : String} {b : Bool}
    {u : User} {s' : Store} (h : SetUserActive s uid b = (.ok u, s')) :
    ∃ u₀, lookupKey s.users uid = some u₀ ∧ u = { u₀ with isActive := b } ∧
      s' = { s with users := setKey s.users uid u } := by
  unfold SetUserActive at h
  cases hu : lookupKey s.users uid with
  | none => rw [hu] at h; simp at h
  | some u₀ =>
    rw [hu] at h
    try dsimp only at h
    have h1 := congrArg Prod.fst h
    have h2 := congrArg Prod.snd h
    dsimp only at h1 h2
    injection h1 with h1
    exact ⟨u₀, rfl, h1.symm, by rw [← h2, ← h1]⟩

/-! ### Merged pull requests are frozen -/

/-- Merging an already-merged pull request returns it unchanged. -/
theorem MergePullRequest_merged {s : Store} {prID : String} (now : Nat)
    {pr : PullRequest} (hpr : lookupKey s.prs prID = some pr)
    (hm : pr.status = "MERGED") :
    MergePullRequest s prID now = (.ok pr, s) := by
  unfold MergePullRequest
  rw [hpr]
  try dsimp only
  rw [if_neg (by simp [hm])]

/-- Merging a not-yet-merged pull request stamps it. -/
theorem MergePullRequest_open {s : Store} {prID : String} (now : Nat)
    {pr₀ : PullRequest} (hpr : lookupKey s.prs prID = some pr₀)
    (hm : pr₀.status ≠ "MERGED") :
    MergePullRequest s prID now =
      (.ok (mergeStamp pr₀ now),
       { s with prs := setKey s.prs prID (mergeStamp pr₀ now) }) := by
  unfold MergePullRequest mergeStamp
  rw [hpr]
  try dsimp only
  rw [if_pos hm]

/-- A stored pull request with status `MERGED` is never modified (nor
removed) by any later successful store call. -/
theorem step_preserves_merged {s s' : Store} (hstep : Step s s')
    {prID : String} {pr : PullRequest} (hpr : lookupKey s.prs prID = some pr)
    (hm : pr.status = "MERGED") : lookupKey s'.prs prID = some pr := by
  cases hstep with
  | createTeam name members t s2 h =>
    rw [CreateTeam_prs h]
    exact hpr
  | setUserActive uid b u s2 h =>
    rw [(SetUserActive_state h).2]
    exact hpr
  | createPullRequest input now shuffle pr₂ s2 hs h =>
    obtain ⟨author, mem, hid, hau, hne, hmem, hpr₂, hs'⟩ := CreatePullRequest_ok_inv h
    have hne2 : prID ≠ input.id := by
      intro e
      rw [e] at hpr
      rw [hpr] at hid
      cases hid
    rw [hs']
    show lookupKey (setKey s.prs input.id pr₂) prID = some pr
    rw [lookupKey_setKey_ne _ _ _ _ hne2]
    exact hpr
  | mergePullRequest prID2 now pr₂ s2 h =>
    obtain ⟨pr₀, hpr₀, hcase⟩ := MergePullRequest_ok_inv h
    rcases hcase with ⟨hopen, hpr₂, hs'⟩ | ⟨_, _, hs'⟩
    · by_cases he : prID2 = prID
      · rw [he] at hpr₀
        rw [hpr] at hpr₀
        injection hpr₀ with hpr₀
        rw [hpr₀] at hm
        exact absurd hm hopen
      · rw [hs']
        show lookupKey (setKey s.prs prID2 pr₂) prID = some pr
        rw [lookupKey_setKey_ne _ _ _ _ (Ne.symm he)]
        exact hpr
    · rw [hs']
      exact hpr
  | reassignReviewer prID2 old pick r s2 h =>
    obtain ⟨pr₂, index, reviewer, mem, hpr₂, hopen, _, _, _, _, _, _, _, hs'⟩ :=
      ReassignReviewer_ok_inv h
    by_cases he : prID2 = prID
    · rw [he] at hpr₂
      rw [hpr] at hpr₂
      injection hpr₂ with hpr₂
      rw [hpr₂] at hm
      exact absurd hm hopen
    · rw [hs']
      show lookupKey (setKey s.prs prID2 r.pr) prID = some pr
      rw [lookupKey_setKey_ne _ _ _ _ (Ne.symm he)]
      exact hpr

/-- A stored merged pull request survives any sequence of successful calls. -/
theorem reachableFrom_preserves_merged {s s' : Store} (h : ReachableFrom s s')
    {prID : String} {pr : PullRequest} (hpr : lookupKey s.prs prID = some pr)
    (hm : pr.status = "MERGED") : lookupKey s'.prs prID = some pr := by
  induction h with
  | refl => exact hpr
  | tail _ hbc ih => exact step_preserves_merged hbc ih hm

/-! ### C4 — MergePullRequest is idempotent -/

/-- C4: a first successful `MergePullRequest` on an existing pull request
sets status `MERGED` and stamps `MergedAt` once; every further
`MergePullRequest` on the same id succeeds, returns the same pull request
(and so the same `MergedAt`) and leaves the store unchanged; and after the
merge no sequence of successful store calls ever changes the stored record —
in particular `MergedAt` never changes and the status never goes back to
`OPEN`. -/
theorem mergePullRequest_idempotent (s : Store) (prID : String) (now : Nat)
    (pr₀ : PullRequest) (h0 : lookupKey s.prs prID = some pr₀) :
    ∃ pr1 s1, MergePullRequest s prID now = (.ok pr1, s1) ∧
      pr1.status = "MERGED" ∧
      (pr₀.status ≠ "MERGED" → pr₀.mergedAt = none → pr1.mergedAt = some now) ∧
      (∀ t, pr₀.mergedAt = some t → pr1.mergedAt = some t) ∧
      lookupKey s1.prs prID = some pr1 ∧
      (∀ now2, MergePullRequest s1 prID now2 = (.ok pr1, s1)) ∧
      (∀ s2, ReachableFrom s1 s2 → lookupKey s2.prs prID = some pr1 ∧
        ∀ now3, MergePullRequest s2 prID now3 = (.ok pr1, s2)) := by
  by_cases hm : pr₀.status = "MERGED"
  · refine ⟨pr₀, s, MergePullRequest_merged now h0 hm, hm, ?_, ?_, h0, ?_, ?_⟩
    · intro hopen
      exact absurd hm hopen
    · intro t ht
      exact ht
    · intro now2
      exact MergePullRequest_merged now2 h0 hm
    · intro s2 hreach
      have hlk := reachableFrom_preserves_merged hreach h0 hm
      exact ⟨hlk, fun now3 => MergePullRequest_merged now3 hlk hm⟩
  · have hl : lookupKey ({ s with
        prs := setKey s.prs prID (mergeStamp pr₀ now) } : Store).prs prID =
        some (mergeStamp pr₀ now) := lookupKey_setKey_self _ _ _
    refine ⟨mergeStamp pr₀ now, _, MergePullRequest_open now h0 hm, rfl,
      ?_, ?_, hl, ?_, ?_⟩
    · intro _ hnone
      simp [mergeStamp, hnone]
    · intro t ht
      simp [mergeStamp, ht]
    · intro now2
      exact MergePullRequest_merged now2 hl rfl
    · intro s2 hreach
      have hlk := reachableFrom_preserves_merged hreach hl rfl
      exact ⟨hlk, fun now3 => MergePullRequest_merged now3 hlk rfl⟩

/-- Witness for C4: merging `pr1` at instant 9 and again at instant 11
returns the same merged pull request and store both times. -/
theorem mergePullRequest_idempotent_witness :
    MergePullRequest wStorePR "pr1" 9 =
      (.ok ⟨"pr1", "one", "u1", "MERGED", ["u2", "u4"], 5, some 9⟩, wStoreM9) ∧
    MergePullRequest wStoreM9 "pr1" 11 =
      (.ok ⟨"pr1", "one", "u1", "MERGED", ["u2", "u4"], 5, some 9⟩, wStoreM9) := by
  obtain ⟨pr1, s1, h1, _, _, _, _, h6, _⟩ :=
    mergePullRequest_idempotent wStorePR "pr1" 9 wPR (by decide)
  have hc : MergePullRequest wStorePR "pr1" 9 =
      (.ok (⟨"pr1", "one", "u1", "MERGED", ["u2", "u4"], 5,
        some 9⟩ : PullRequest), wStoreM9) := by rfl
  rw [h1] at hc
  have e1 := congrArg Prod.fst hc
  have e2 := congrArg Prod.snd hc
  dsimp only at e1 e2
  injection e1 with e1
  constructor
  · rw [← e1, ← e2]
    exact h1
  · have h7 := h6 11
    rw [e1, e2] at h7
    exact h7

/-! ### C1 — reviewer selection policy -/

/-- Helper: the list built by `pickReviewersLocked` is short, duplicate-free,
drawn from the active non-author members, and empty only on an empty pool. -/
theorem pickReviewersLocked_spec (s : Store) (mem : List String)
    (authorID : String) (shuffle : List String → List String)
    (hshuf : ∀ l : List String, (shuffle l).Perm l) (hnd : mem.Nodup) :
    (pickReviewersLocked s mem authorID shuffle).length ≤ 2 ∧
    (pickReviewersLocked s mem authorID shuffle).Nodup ∧
    (∀ r ∈ pickReviewersLocked s mem authorID shuffle,
      r ∈ mem ∧ isActiveUser s r = true ∧ r ≠ authorID) ∧
    (pickReviewersLocked s mem authorID shuffle = [] ↔
      reviewerCandidates s mem authorID = []) := by
  have hcand_nd : (reviewerCandidates s mem authorID).Nodup := hnd.filter _
  have hperm := hshuf (reviewerCandidates s mem authorID)
  unfold pickReviewersLocked
  dsimp only
  by_cases hc : (reviewerCandidates s mem authorID).length = 0
  · rw [if_pos hc]
    have hnil : reviewerCandidates s mem authorID = [] := List.length_eq_zero.mp hc
    simp [hnil]
  · rw [if_neg hc]
    have hLnd : (shuffle (reviewerCandidates s mem authorID)).Nodup :=
      hperm.nodup_iff.mpr hcand_nd
    have hsub : List.Sublist
        ((shuffle (reviewerCandidates s mem authorID)).take
          (min 2 (shuffle (reviewerCandidates s mem authorID)).length))
        (shuffle (reviewerCandidates s mem authorID)) := List.take_sublist _ _
    have hlenL : (shuffle (reviewerCandidates s mem authorID)).length ≠ 0 := by
      rw [hperm.length_eq]
      exact hc
    refine ⟨?_, ?_, ?_, ?_⟩
    · rw [List.length_take]
      omega
    · exact hLnd.sublist hsub
    · intro r hr
      have hrc : r ∈ reviewerCandidates s mem authorID :=
        hperm.mem_iff.mp (hsub.subset hr)
      unfold reviewerCandidates at hrc
      rw [List.mem_filter] at hrc
      obtain ⟨hmem', hb⟩ := hrc
      rw [Bool.and_eq_true, bne_iff_ne] at hb
      exact ⟨hmem', hb.2, hb.1⟩
    · constructor
      · intro hempty
        have hlen2 := congrArg List.length hempty
        rw [List.length_take] at hlen2
        simp only [List.length_nil] at hlen2
        omega
      · intro hnil
        exact absurd (by rw [hnil] : reviewerCandidates s mem authorID = [])
          (fun hh => hc (by rw [hh]; rfl))

/-- C1: a successful `CreatePullRequest` on a store whose team member sets
are duplicate-free and whose user records carry their key as id returns a
pull request whose reviewer list never contains the author's user id, has at
most 2 entries, has no duplicates, consists of active members of the
author's team at call time, and is empty exactly when the author's team has
no active member other than the author. -/
theorem createPullRequest_reviewer_policy (s : Store)
    (input : CreatePullRequestInput) (now : Nat)
    (shuffle : List String → List String)
    (hshuf : ∀ l : List String, (shuffle l).Perm l)
    (hnodup : ∀ p ∈ s.teams, (p.2 : List String).Nodup)
    (hkeyed : ∀ p ∈ s.users, (p.2 : User).id = p.1)
    (pr : PullRequest) (s' : Store)
    (h : CreatePullRequest s input now shuffle = (.ok pr, s')) :
    ∃ author mem, lookupKey s.users input.authorID = some author ∧
      lookupKey s.teams author.teamName = some mem ∧
      pr.authorID = input.authorID ∧
      pr.assignedReviewers.length ≤ 2 ∧
      pr.assignedReviewers.Nodup ∧
      input.authorID ∉ pr.assignedReviewers ∧
      (∀ r ∈ pr.assignedReviewers,
        r ∈ mem ∧ isActiveUser s r = true ∧ r ≠ input.authorID) ∧
      (pr.assignedReviewers = [] ↔
        ∀ r ∈ mem, r ≠ input.authorID → isActiveUser s r = false) := by
  obtain ⟨author, mem, hid, hau, hne, hmem, hpr, hs'⟩ := CreatePullRequest_ok_inv h
  have hauthorid : author.id = input.authorID := hkeyed _ (lookupKey_mem hau)
  have hnd : mem.Nodup := hnodup _ (lookupKey_mem hmem)
  obtain ⟨hlen, hnodup2, hmem2, hempty⟩ :=
    pickReviewersLocked_spec s mem author.id shuffle hshuf hnd
  subst hpr
  refine ⟨author, mem, hau, hmem, hauthorid, hlen, hnodup2, ?_, ?_, ?_⟩
  · intro hcontra
    obtain ⟨_, _, hne2⟩ := hmem2 _ hcontra
    exact hne2 hauthorid.symm
  · intro r hr
    obtain ⟨hm', hact, hne'⟩ := hmem2 r hr
    refine ⟨hm', hact, ?_⟩
    rw [← hauthorid]
    exact hne'
  · constructor
    · intro hnil r hrm hrne
      have hcand : reviewerCandidates s mem author.id = [] := hempty.mp hnil
      unfold reviewerCandidates at hcand
      rw [List.filter_eq_nil_iff] at hcand
      have hb := hcand r hrm
      rw [Bool.and_eq_true, bne_iff_ne] at hb
      rcases Bool.eq_false_or_eq_true (isActiveUser s r) with hact | hact
      · exact absurd ⟨by rw [hauthorid]; exact hrne, hact⟩ hb
      · exact hact
    · intro hall
      apply hempty.mpr
      unfold reviewerCandidates
      rw [List.filter_eq_nil_iff]
      intro a ham
      rw [Bool.and_eq_true, bne_iff_ne]
      rintro ⟨hne3, hact⟩
      have hfalse := hall a ham (by rw [← hauthorid]; exact hne3)
      rw [hfalse] at hact
      cases hact

/-- Witness for C1: creating `pr1` on the concrete store with the identity
shuffle yields reviewers `[u2, u4]` satisfying the policy. -/
theorem createPullRequest_reviewer_policy_witness :
    ∃ author mem, lookupKey wStore.users "u1" = some author ∧
      lookupKey wStore.teams author.teamName = some mem ∧
      wPRone.authorID = "u1" ∧
      wPRone.assignedReviewers.length ≤ 2 ∧
      wPRone.assignedReviewers.Nodup ∧
      "u1" ∉ wPRone.assignedReviewers ∧
      (∀ r ∈ wPRone.assignedReviewers,
        r ∈ mem ∧ isActiveUser wStore r = true ∧ r ≠ "u1") ∧
      (wPRone.assignedReviewers = [] ↔
        ∀ r ∈ mem, r ≠ "u1" → isActiveUser wStore r = false) :=
  createPullRequest_reviewer_policy wStore ⟨"pr1", "one", "u1"⟩ 5 id
    (fun l => List.Perm.refl l) (by decide) (by decide) wPRone
    { wStore with prs := setKey wStore.prs "pr1" wPRone } (by rfl)

/-! ### C2 — replacement selection policy -/

/-- Helper: the Go `rnd.Intn` draw selects an element of the candidate
list. -/
theorem pickReplacement_mem {s : Store} {mem : List String}
    {authorID : String} {assigned : List String} {skip : String} {pick : Nat}
    (hlen : (pickReplacementCandidatesLocked s mem authorID assigned
      skip).length ≠ 0) :
    (pickReplacementCandidatesLocked s mem authorID assigned skip).getD
      (pick % (pickReplacementCandidatesLocked s mem authorID assigned
        skip).length) "" ∈
      pickReplacementCandidatesLocked s mem authorID assigned skip := by
  have hpos : 0 < (pickReplacementCandidatesLocked s mem authorID assigned
      skip).length := Nat.pos_of_ne_zero hlen
  have hidx := Nat.mod_lt pick hpos
  rw [List.getD_eq_getElem?_getD, List.getElem?_eq_getElem hidx]
  exact List.getElem_mem _

/-- Helper: membership in the replacement-candidate pool unpacked. -/
theorem pickReplacement_candidate_spec {s : Store} {mem : List String}
    {authorID : String} {assigned : List String} {skip r : String}
    (hr : r ∈ pickReplacementCandidatesLocked s mem authorID assigned skip) :
    r ∈ mem ∧ r ≠ skip ∧ r ≠ authorID ∧ r ∉ assigned ∧
      isActiveUser s r = true := by
  unfold pickReplacementCandidatesLocked at hr
  simp only [List.mem_filter, Bool.and_eq_true, bne_iff_ne,
    Bool.not_eq_true'] at hr
  obtain ⟨hmem', ⟨⟨hskip, hauthor⟩, hcont⟩, hact⟩ := hr
  refine ⟨hmem', hskip, hauthor, ?_, hact⟩
  intro hassigned
  have hin : r ∈ assigned.filter (fun id => id != skip) :=
    List.mem_filter.mpr ⟨hassigned, by rw [bne_iff_ne]; exact hskip⟩
  have htrue : (assigned.filter (fun id => id != skip)).contains r = true :=
    List.elem_iff.mpr hin
  rw [htrue] at hcont
  cases hcont

/-- C2: a successful `ReassignReviewer(prID, oldReviewerID)` call picks a
replacement that is an active member of the old reviewer's team, is not the
pull request's author, not the old reviewer, and not any user already on the
reviewer list; the replacement is written at exactly the first list position
previously holding the old reviewer, and the list length is unchanged. -/
theorem reassignReviewer_replacement_policy (s : Store) (prID old : String)
    (pick : Nat) (r : ReassignResult) (s' : Store)
    (h : ReassignReviewer s prID old pick = (.ok r, s')) :
    ∃ pr reviewer mem index,
      lookupKey s.prs prID = some pr ∧
      lookupKey s.users old = some reviewer ∧
      lookupKey s.teams reviewer.teamName = some mem ∧
      r.replacedBy ∈ mem ∧
      isActiveUser s r.replacedBy = true ∧
      r.replacedBy ≠ pr.authorID ∧
      r.replacedBy ≠ old ∧
      r.replacedBy ∉ pr.assignedReviewers ∧
      pr.assignedReviewers.get? index = some old ∧
      (∀ j, j < index → pr.assignedReviewers.get? j ≠ some old) ∧
      r.pr.assignedReviewers = pr.assignedReviewers.set index r.replacedBy ∧
      r.pr.assignedReviewers.length = pr.assignedReviewers.length ∧
      lookupKey s'.prs prID = some r.pr := by
  obtain ⟨pr, index, reviewer, mem, hpr, hopen, hidx, hrev, hrt, hmem,
    hlen, hrepl, hrpr, hs'⟩ := ReassignReviewer_ok_inv h
  have hmemc : r.replacedBy ∈ pickReplacementCandidatesLocked s mem
      pr.authorID pr.assignedReviewers old := by
    rw [hrepl]
    exact pickReplacement_mem hlen
  obtain ⟨hm1, hm2, hm3, hm4, hm5⟩ := pickReplacement_candidate_spec hmemc
  rw [List.findIdx?_eq_some_iff_getElem] at hidx
  obtain ⟨hlt, hpi, hmin⟩ := hidx
  refine ⟨pr, reviewer, mem, index, hpr, hrev, hmem, hm1, hm5, hm3, hm2, hm4,
    ?_, ?_, ?_, ?_, ?_⟩
  · rw [List.get?_eq_getElem?, List.getElem?_eq_getElem hlt]
    have hpi' : pr.assignedReviewers.get ⟨index, hlt⟩ = old := by
      have := hpi
      rw [beq_iff_eq] at this
      exact this
    rw [← hpi']
    rfl
  · intro j hj hcontra
    have hjlt : j < pr.assignedReviewers.length := Nat.lt_trans hj hlt
    have hfalse := hmin j hj
    rw [List.get?_eq_getElem?, List.getElem?_eq_getElem hjlt] at hcontra
    injection hcontra with hcontra
    exact hfalse (by rw [beq_iff_eq]; exact hcontra)
  · rw [hrpr]
  · rw [hrpr]
    exact List.length_set pr.assignedReviewers index r.replacedBy
  · rw [hs']
    exact lookupKey_setKey_self _ _ _

/-- Witness for C2: reassigning `u2` on `pr1` replaces it by `u5` at list
position 0. -/
theorem reassignReviewer_replacement_policy_witness :
    ∃ pr reviewer mem index,
      lookupKey wStorePR.prs "pr1" = some pr ∧
      lookupKey wStorePR.users "u2" = some reviewer ∧
      lookupKey wStorePR.teams reviewer.teamName = some mem ∧
      "u5" ∈ mem ∧
      isActiveUser wStorePR "u5" = true ∧
      "u5" ≠ pr.authorID ∧
      "u5" ≠ "u2" ∧
      "u5" ∉ pr.assignedReviewers ∧
      pr.assignedReviewers.get? index = some "u2" ∧
      (∀ j, j < index → pr.assignedReviewers.get? j ≠ some "u2") ∧
      wPRr5.assignedReviewers = pr.assignedReviewers.set index "u5" ∧
      wPRr5.assignedReviewers.length = pr.assignedReviewers.length ∧
      lookupKey wStoreR5.prs "pr1" = some wPRr5 :=
  reassignReviewer_replacement_policy wStorePR "pr1" "u2" 0
    ⟨wPRr5, "u5"⟩ wStoreR5 (by rfl)

/-! ### C8/C9 — listing pull requests by reviewer -/

/-- Helper: the value computed for a registered user. -/
theorem listPRs_ok {s : Store} {uid : String} {u : User}
    (hu : lookupKey s.users uid = some u) :
    ListPullRequestsByReviewer s uid =
      .ok (((s.prs.map Prod.snd).filter
        (fun pr => pr.assignedReviewers.contains uid)).mergeSort
          (fun a b => decide (a.id ≤ b.id))) := by
  unfold ListPullRequestsByReviewer
  rw [hu]

/-- C8: `ListPullRequestsByReviewer` fails with `UserNotFound` on an
unregistered id; on a registered id it returns exactly the stored pull
requests whose current reviewer list contains the id, sorted ascending by
pull-request id, and the empty sequence (not an error) when there are
none. -/
theorem listPullRequestsByReviewer_contract (s : Store) (uid : String) :
    (lookupKey s.users uid = none →
      ListPullRequestsByReviewer s uid = .error .userNotFound) ∧
    (∀ u, lookupKey s.users uid = some u →
      ∃ res, ListPullRequestsByReviewer s uid = .ok res ∧
        res.Perm ((s.prs.map Prod.snd).filter
          (fun pr => pr.assignedReviewers.contains uid)) ∧
        (∀ pr, pr ∈ res ↔
          pr ∈ s.prs.map Prod.snd ∧ uid ∈ pr.assignedReviewers) ∧
        res.Pairwise (fun a b => a.id ≤ b.id) ∧
        ((∀ pr ∈ s.prs.map Prod.snd, uid ∉ pr.assignedReviewers) →
          res = [])) := by
  constructor
  · intro hnone
    unfold ListPullRequestsByReviewer
    rw [hnone]
  · intro u hu
    refine ⟨_, listPRs_ok hu, List.mergeSort_perm _ _, ?_, ?_, ?_⟩
    · intro pr
      rw [List.mem_mergeSort, List.mem_filter]
      constructor
      · rintro ⟨h1, h2⟩
        exact ⟨h1, List.elem_iff.mp h2⟩
      · rintro ⟨h1, h2⟩
        exact ⟨h1, List.elem_iff.mpr h2⟩
    · have htrans : ∀ a b c : PullRequest, decide (a.id ≤ b.id) = true →
          decide (b.id ≤ c.id) = true → decide (a.id ≤ c.id) = true := by
        intro a b c h1 h2
        exact decide_eq_true
          (le_trans (of_decide_eq_true h1) (of_decide_eq_true h2))
      have htotal : ∀ a b : PullRequest,
          (decide (a.id ≤ b.id) || decide (b.id ≤ a.id)) = true := by
        intro a b
        rcases le_total a.id b.id with hle | hle <;> simp [hle]
      have hp := List.sorted_mergeSort htrans htotal
        ((s.prs.map Prod.snd).filter
          (fun pr => pr.assignedReviewers.contains uid))
      exact hp.imp (fun hab => of_decide_eq_true hab)
    · intro hnone2
      have hfn : (s.prs.map Prod.snd).filter
          (fun pr => pr.assignedReviewers.contains uid) = [] := by
        rw [List.filter_eq_nil_iff]
        intro pr hpr hcontains
        exact hnone2 pr hpr (List.elem_iff.mp hcontains)
      rw [hfn, List.mergeSort_nil]

/-- Witness for C8 at a concrete store: `u2` reviews exactly `pr1`. -/
theorem listPullRequestsByReviewer_contract_witness :
    ∃ res, ListPullRequestsByReviewer wStorePR "u2" = .ok res ∧
      res.Perm ((wStorePR.prs.map Prod.snd).filter
        (fun pr => pr.assignedReviewers.contains "u2")) ∧
      (∀ pr, pr ∈ res ↔
        pr ∈ wStorePR.prs.map Prod.snd ∧ "u2" ∈ pr.assignedReviewers) ∧
      res.Pairwise (fun a b => a.id ≤ b.id) ∧
      ((∀ pr ∈ wStorePR.prs.map Prod.snd, "u2" ∉ pr.assignedReviewers) →
        res = []) :=
  (listPullRequestsByReviewer_contract wStorePR "u2").2
    ⟨"u2", "b", "core", true⟩ (by decide)

/-- C9: `ListPullRequestsByReviewer` never filters by status: a stored pull
request listing the user among its reviewers is returned even when its
status is `MERGED`. -/
theorem listPullRequestsByReviewer_ignores_status (s : Store) (uid : String)
    (u : User) (pr : PullRequest)
    (hu : lookupKey s.users uid = some u)
    (hpr : pr ∈ s.prs.map Prod.snd)
    (hrev : uid ∈ pr.assignedReviewers)
    (hmerged : pr.status = "MERGED") :
    ∃ res, ListPullRequestsByReviewer s uid = .ok res ∧ pr ∈ res := by
  refine ⟨_, listPRs_ok hu, ?_⟩
  rw [List.mem_mergeSort, List.mem_filter]
  exact ⟨hpr, List.elem_iff.mpr hrev⟩

/-- Witness for C9: the merged `pr1` is still listed for reviewer `u2`. -/
theorem listPullRequestsByReviewer_ignores_status_witness :
    ∃ res, ListPullRequestsByReviewer wStoreMerged "u2" = .ok res ∧
      (⟨"pr1", "one", "u1", "MERGED", ["u2", "u4"], 5,
        some 7⟩ : PullRequest) ∈ res :=
  listPullRequestsByReviewer_ignores_status wStoreMerged "u2"
    ⟨"u2", "b", "core", true⟩
    ⟨"pr1", "one", "u1", "MERGED", ["u2", "u4"], 5, some 7⟩
    (by decide) (by decide) (by decide) (by decide)

/-! ### CreateTeam member-loop lemmas -/

/-- `addTeamMember` with an empty user id is the identity. -/
theorem addTeamMember_empty (name : String) (s : Store) (m : TeamMemberInput)
    (he : m.userID = "") : addTeamMember name s m = s := by
  unfold addTeamMember
  rw [if_pos he]

/-- The user map after `addTeamMember` is that of the upsert. -/
theorem addTeamMember_users_eq (name : String) (s : Store)
    (m : TeamMemberInput) (hne : m.userID ≠ "") :
    (addTeamMember name s m).users =
      (upsertUserLocked s m.userID m.username name m.isActive).2.users := by
  unfold addTeamMember
  rw [if_neg hne]
  dsimp only
  cases hmm : lookupKey (upsertUserLocked s m.userID m.username name
      m.isActive).2.teams name <;> simp [hmm]

/-- Full description of `addTeamMember` for a non-empty user id when the
team being built exists in the map. -/
theorem addTeamMember_spec (name : String) (st : Store) (m : TeamMemberInput)
    (hne : m.userID ≠ "") (hkeyed : UsersKeyed st)
    {mem₀ : List String} (hname : lookupKey st.teams name = some mem₀) :
    ∃ u₀ : User,
      (lookupKey st.users m.userID = some u₀ ∨
        (lookupKey st.users m.userID = none ∧
          u₀ = { id := m.userID, username := "", teamName := "",
                 isActive := false })) ∧
      u₀.id = m.userID ∧
      (addTeamMember name st m).users =
        setKey st.users m.userID
          { u₀ with
            username := m.username
            teamName := name
            isActive := m.isActive } ∧
      (addTeamMember name st m).prs = st.prs ∧
      (((u₀.teamName = "" ∨ u₀.teamName = name) ∨
          lookupKey st.teams u₀.teamName = none) →
        (addTeamMember name st m).teams =
          setKey st.teams name (insertMember mem₀ m.userID)) ∧
      (∀ oldMem, u₀.teamName ≠ "" → u₀.teamName ≠ name →
        lookupKey st.teams u₀.teamName = some oldMem →
        (addTeamMember name st m).teams =
          setKey (setKey st.teams u₀.teamName (oldMem.erase m.userID)) name
            (insertMember mem₀ m.userID)) := by
  obtain ⟨u₀, hdisj, hfst, husers, hprs, hnochange, herase⟩ :=
    upsertUserLocked_spec st m.userID m.username name m.isActive
  have hid : u₀.id = m.userID := by
    rcases hdisj with hu | ⟨_, hu⟩
    · exact hkeyed _ (lookupKey_mem hu)
    · rw [hu]
  refine ⟨u₀, hdisj, hid, ?_, addTeamMember_prs name st m, ?_, ?_⟩
  · rw [addTeamMember_users_eq name st m hne, husers]
  · intro hcase
    have hteams : (upsertUserLocked st m.userID m.username name
        m.isActive).2.teams = st.teams := hnochange hcase
    unfold addTeamMember
    rw [if_neg hne]
    dsimp only
    rw [hteams, hname]
    dsimp only
    rw [hfst]
    dsimp only
    rw [hid]
  · intro oldMem hT1 hT2 hold
    have hteams := herase oldMem hT1 hT2 hold
    unfold addTeamMember
    rw [if_neg hne]
    dsimp only
    rw [hteams, lookupKey_setKey_ne st.teams u₀.teamName name _ (Ne.symm hT2),
      hname]
    dsimp only
    rw [hfst]
    dsimp only
    rw [hid]

/-! ### Invariant preservation -/

/-- Reading a map after a write, in one equation. -/
theorem lookupKey_setKey_cases (l : List (String × α)) (k k' : String) (v : α) :
    lookupKey (setKey l k v) k' =
      if k' = k then some v else lookupKey l k' := by
  by_cases h : k' = k
  · rw [if_pos h, h]
    exact lookupKey_setKey_self l k v
  · rw [if_neg h]
    exact lookupKey_setKey_ne l k k' v h

/-- `List.contains` on strings decides membership. -/
theorem contains_iff_mem {l : List String} {a : String} :
    l.contains a = true ↔ a ∈ l := List.elem_iff

/-- Unfolding `teamHasMember`. -/
theorem teamHasMember_true_iff {s : Store} {tname uid : String} :
    teamHasMember s tname uid = true ↔
      ∃ mem, lookupKey s.teams tname = some mem ∧ uid ∈ mem := by
  unfold teamHasMember
  cases h : lookupKey s.teams tname with
  | none => simp
  | some mem => simp [contains_iff_mem]

/-- Unfolding `userInTeam`. -/
theorem userInTeam_true_iff {s : Store} {uid tname : String} :
    userInTeam s uid tname = true ↔
      ∃ u, lookupKey s.users uid = some u ∧ u.teamName = tname := by
  unfold userInTeam
  cases h : lookupKey s.users uid with
  | none => simp
  | some u => simp

/-- Registering a fresh team with an empty member set keeps the invariant. -/
theorem Inv_fresh_team (s : Store) (name : String) (hinv : Inv s)
    (hnone : lookupKey s.teams name = none) :
    Inv { s with teams := setKey s.teams name [] } ∧
    lookupKey (setKey s.teams name ([] : List String)) name =
      some ([] : List String) := by
  obtain ⟨hKN, hMN, hUK, hUS, hTS⟩ := hinv
  refine ⟨⟨⟨keys_nodup_setKey _ hKN.1, hKN.2.1, hKN.2.2⟩, ?_, hUK, ?_, ?_⟩,
    lookupKey_setKey_self _ _ _⟩
  · intro p hp
    rcases mem_setKey hp with heq | hp'
    · subst heq
      exact List.nodup_nil
    · exact hMN p hp'
  · intro p hp htn
    have h0 := hUS p hp htn
    rw [teamHasMember_true_iff] at h0 ⊢
    obtain ⟨mem, hmem, huid⟩ := h0
    refine ⟨mem, ?_, huid⟩
    show lookupKey (setKey s.teams name []) (p.2 : User).teamName = some mem
    rw [lookupKey_setKey_cases]
    by_cases he : (p.2 : User).teamName = name
    · rw [he] at hmem
      rw [hmem] at hnone
      cases hnone
    · rw [if_neg he]
      exact hmem
  · intro p hp hne2 w hw
    rcases mem_setKey hp with heq | hp'
    · subst heq
      cases hw
    · exact hTS p hp' hne2 w hw

/-- One member iteration of `CreateTeam` keeps the invariant, and keeps the
team being built registered. -/
theorem addTeamMember_inv (name : String) (st : Store) (m : TeamMemberInput)
    (hinv : Inv st) {mem₀ : List String}
    (hname : lookupKey st.teams name = some mem₀) :
    Inv (addTeamMember name st m) ∧
    ∃ mem₁, lookupKey (addTeamMember name st m).teams name = some mem₁ := by
  obtain ⟨hKN, hMN, hUK, hUS, hTS⟩ := hinv
  by_cases he : m.userID = ""
  · rw [addTeamMember_empty name st m he]
    exact ⟨⟨hKN, hMN, hUK, hUS, hTS⟩, mem₀, hname⟩
  obtain ⟨u₀, hdisj, hid, husers, hprs, hnoch, hers⟩ :=
    addTeamMember_spec name st m he hUK hname
  have hmem₀nd : mem₀.Nodup := hMN _ (lookupKey_mem hname)
  have hshape :
      ((((u₀.teamName = "" ∨ u₀.teamName = name) ∨
          lookupKey st.teams u₀.teamName = none) ∧
        (addTeamMember name st m).teams =
          setKey st.teams name (insertMember mem₀ m.userID)) ∨
       (∃ oldMem, u₀.teamName ≠ "" ∧ u₀.teamName ≠ name ∧
         lookupKey st.teams u₀.teamName = some oldMem ∧
         (addTeamMember name st m).teams =
           setKey (setKey st.teams u₀.teamName (oldMem.erase m.userID)) name
             (insertMember mem₀ m.userID))) := by
    by_cases hc : u₀.teamName ≠ "" ∧ u₀.teamName ≠ name
    · cases hold : lookupKey st.teams u₀.teamName with
      | none => exact Or.inl ⟨Or.inr rfl, hnoch (Or.inr hold)⟩
      | some oldMem =>
        exact Or.inr ⟨oldMem, hc.1, hc.2, rfl, hers oldMem hc.1 hc.2 hold⟩
    · have hc' : u₀.teamName = "" ∨ u₀.teamName = name := by
        rcases not_and_or.mp hc with h | h
        · exact Or.inl (not_not.mp h)
        · exact Or.inr (not_not.mp h)
      exact Or.inl ⟨Or.inl hc', hnoch (Or.inl hc')⟩
  have hulk : ∀ w, lookupKey (addTeamMember name st m).users w =
      if w = m.userID then
        some { u₀ with
               username := m.username
               teamName := name
               isActive := m.isActive }
      else lookupKey st.users w := by
    intro w
    rw [husers, lookupKey_setKey_cases]
  constructor
  · refine ⟨⟨?_, ?_, ?_⟩, ?_, ?_, ?_, ?_⟩
    · rcases hshape with ⟨_, hA⟩ | ⟨oldMem, _, _, _, hB⟩
      · rw [hA]
        exact keys_nodup_setKey _ hKN.1
      · rw [hB]
        exact keys_nodup_setKey _ (keys_nodup_setKey _ hKN.1)
    · rw [husers]
      exact keys_nodup_setKey _ hKN.2.1
    · rw [hprs]
      exact hKN.2.2
    · -- MembersNodup
      intro p hp
      rcases hshape with ⟨_, hA⟩ | ⟨oldMem, _, _, hold, hB⟩
      · rw [hA] at hp
        rcases mem_setKey hp with heq | hp'
        · subst heq
          exact insertMember_nodup hmem₀nd
        · exact hMN p hp'
      · rw [hB] at hp
        rcases mem_setKey hp with heq | hp'
        · subst heq
          exact insertMember_nodup hmem₀nd
        · rcases mem_setKey hp' with heq2 | hp''
          · subst heq2
            exact (hMN _ (lookupKey_mem hold)).erase _
          · exact hMN p hp''
    · -- UsersKeyed
      intro p hp
      rw [husers] at hp
      rcases mem_setKey hp with heq | hp'
      · subst heq
        exact hid
      · exact hUK p hp'
    · -- UserSide
      intro p hp htn
      rw [husers] at hp
      rw [teamHasMember_true_iff]
      rcases (mem_setKey_iff hKN.2.1).mp hp with heq | ⟨hp', hpne⟩
      · subst heq
        rcases hshape with ⟨_, hA⟩ | ⟨oldMem, _, _, _, hB⟩
        · refine ⟨insertMember mem₀ m.userID, ?_, self_mem_insertMember _ _⟩
          rw [hA]
          exact lookupKey_setKey_self _ _ _
        · refine ⟨insertMember mem₀ m.userID, ?_, self_mem_insertMember _ _⟩
          rw [hB]
          exact lookupKey_setKey_self _ _ _
      · have h0 := hUS p hp' htn
        rw [teamHasMember_true_iff] at h0
        obtain ⟨memT, hmemT, hpin⟩ := h0
        rcases hshape with ⟨_, hA⟩ | ⟨oldMem, hT1, hT2, hold, hB⟩
        · rw [hA, lookupKey_setKey_cases]
          by_cases htn2 : (p.2 : User).teamName = name
          · rw [if_pos htn2]
            rw [htn2, hname] at hmemT
            injection hmemT with hmemT
            subst hmemT
            exact ⟨_, rfl, mem_insertMember.mpr (Or.inr hpin)⟩
          · rw [if_neg htn2]
            exact ⟨memT, hmemT, hpin⟩
        · rw [hB, lookupKey_setKey_cases]
          by_cases htn2 : (p.2 : User).teamName = name
          · rw [if_pos htn2]
            rw [htn2, hname] at hmemT
            injection hmemT with hmemT
            subst hmemT
            exact ⟨_, rfl, mem_insertMember.mpr (Or.inr hpin)⟩
          · rw [if_neg htn2, lookupKey_setKey_cases]
            by_cases htn3 : (p.2 : User).teamName = u₀.teamName
            · rw [if_pos htn3]
              rw [htn3, hold] at hmemT
              injection hmemT with hmemT
              subst hmemT
              exact ⟨_, rfl, (List.mem_erase_of_ne hpne).mpr hpin⟩
            · rw [if_neg htn3]
              exact ⟨memT, hmemT, hpin⟩
    · -- TeamSide
      intro p hp hne2 w hw
      rw [userInTeam_true_iff]
      rcases hshape with ⟨hcondA, hA⟩ | ⟨oldMem, hT1, hT2, hold, hB⟩
      · rw [hA] at hp
        rcases (mem_setKey_iff hKN.1).mp hp with heq | ⟨hp', hpne⟩
        · subst heq
          by_cases hwu : w = m.userID
          · subst hwu
            refine ⟨{ u₀ with
                      username := m.username
                      teamName := name
                      isActive := m.isActive }, ?_, rfl⟩
            rw [hulk m.userID, if_pos rfl]
          · have hwmem : w ∈ mem₀ := by
              rcases mem_insertMember.mp hw with h | h
              · exact absurd h hwu
              · exact h
            have h0 := hTS _ (lookupKey_mem hname) hne2 w hwmem
            rw [userInTeam_true_iff] at h0
            obtain ⟨uw, huw, htm⟩ := h0
            refine ⟨uw, ?_, htm⟩
            rw [hulk w, if_neg hwu]
            exact huw
        · have h0 := hTS p hp' hne2 w hw
          rw [userInTeam_true_iff] at h0
          obtain ⟨uw, huw, htm⟩ := h0
          by_cases hwu : w = m.userID
          · subst hwu
            rcases hdisj with hu | ⟨hu, _⟩
            · rw [huw] at hu
              injection hu with hu
              subst hu
              exfalso
              rcases hcondA with hc' | hc'
              · rcases hc' with hc' | hc'
                · rw [htm] at hc'
                  exact hne2 hc'
                · rw [htm] at hc'
                  exact hpne hc'
              · rw [htm] at hc'
                rw [mem_lookupKey hKN.1 hp'] at hc'
                cases hc'
            · rw [huw] at hu
              cases hu
          · refine ⟨uw, ?_, htm⟩
            rw [hulk w, if_neg hwu]
            exact huw
      · rw [hB] at hp
        rcases (mem_setKey_iff (keys_nodup_setKey _ hKN.1)).mp hp
          with heq | ⟨hp', hpne⟩
        · subst heq
          by_cases hwu : w = m.userID
          · subst hwu
            refine ⟨{ u₀ with
                      username := m.username
                      teamName := name
                      isActive := m.isActive }, ?_, rfl⟩
            rw [hulk m.userID, if_pos rfl]
          · have hwmem : w ∈ mem₀ := by
              rcases mem_insertMember.mp hw with h | h
              · exact absurd h hwu
              · exact h
            have h0 := hTS _ (lookupKey_mem hname) hne2 w hwmem
            rw [userInTeam_true_iff] at h0
            obtain ⟨uw, huw, htm⟩ := h0
            refine ⟨uw, ?_, htm⟩
            rw [hulk w, if_neg hwu]
            exact huw
        · rcases (mem_setKey_iff hKN.1).mp hp' with heq2 | ⟨hp'', hpne2⟩
          · subst heq2
            have hwold := ((hMN _ (lookupKey_mem hold)).mem_erase_iff).mp hw
            obtain ⟨hwne, hwmem⟩ := hwold
            have h0 := hTS _ (lookupKey_mem hold) hne2 w hwmem
            rw [userInTeam_true_iff] at h0
            obtain ⟨uw, huw, htm⟩ := h0
            refine ⟨uw, ?_, htm⟩
            rw [hulk w, if_neg hwne]
            exact huw
          · have h0 := hTS p hp'' hne2 w hw
            rw [userInTeam_true_iff] at h0
            obtain ⟨uw, huw, htm⟩ := h0
            by_cases hwu : w = m.userID
            · subst hwu
              rcases hdisj with hu | ⟨hu, _⟩
              · rw [huw] at hu
                injection hu with hu
                subst hu
                exact absurd htm.symm hpne2
              · rw [huw] at hu
                cases hu
            · refine ⟨uw, ?_, htm⟩
              rw [hulk w, if_neg hwu]
              exact huw
  · rcases hshape with ⟨_, hA⟩ | ⟨oldMem, _, _, _, hB⟩
    · refine ⟨insertMember mem₀ m.userID, ?_⟩
      rw [hA]
      exact lookupKey_setKey_self _ _ _
    · refine ⟨insertMember mem₀ m.userID, ?_⟩
      rw [hB]
      exact lookupKey_setKey_self _ _ _

/-- The whole member loop of `CreateTeam` keeps the invariant. -/
theorem foldl_addTeamMember_inv (name : String) :
    ∀ (ms : List TeamMemberInput) (st : Store), Inv st →
      (∃ mem₀, lookupKey st.teams name = some mem₀) →
      Inv (ms.foldl (addTeamMember name) st)
  | [], _, hinv, _ => hinv
  | m :: ms, st, hinv, ⟨_, hmem⟩ => by
    rw [List.foldl_cons]
    obtain ⟨hinv1, hmem1⟩ := addTeamMember_inv name st m hinv hmem
    exact foldl_addTeamMember_inv name ms _ hinv1 hmem1

/-- Inversion of a successful `CreateTeam`. -/
theorem CreateTeam_ok_inv {s : Store} {name : String}
    {members : List TeamMemberInput} {t : Team} {s' : Store}
    (h : CreateTeam s name members = (.ok t, s')) :
    lookupKey s.teams name = none ∧
    s' = members.foldl (addTeamMember name)
      { s with teams := setKey s.teams name [] } := by
  unfold CreateTeam at h
  cases hn : lookupKey s.teams name with
  | some mem =>
    rw [hn] at h
    simp at h
  | none =>
    rw [hn] at h
    try dsimp only at h
    refine ⟨rfl, ?_⟩
    cases hm : lookupKey (members.foldl (addTeamMember name)
        { s with teams := setKey s.teams name [] }).teams name with
    | some mem =>
      rw [hm] at h
      have h2 := congrArg Prod.snd h
      dsimp only at h2
      exact h2.symm
    | none =>
      rw [hm] at h
      have h2 := congrArg Prod.snd h
      dsimp only at h2
      exact h2.symm

/-- The invariant only concerns teams and users, so rewriting the
pull-request map keeps it as long as its keys stay duplicate-free. -/
theorem Inv_of_prs (s : Store) (l : List (String × PullRequest))
    (hinv : Inv s) (hnd : (l.map Prod.fst).Nodup) : Inv { s with prs := l } :=
  ⟨⟨hinv.1.1, hinv.1.2.1, hnd⟩, hinv.2.1, hinv.2.2.1, hinv.2.2.2.1,
    hinv.2.2.2.2⟩

/-- Every successful store call keeps the invariant. -/
theorem step_preserves_inv {s s' : Store} (hstep : Step s s') (hinv : Inv s) :
    Inv s' := by
  cases hstep with
  | createTeam name members t s2 h =>
    obtain ⟨hnone, hs'⟩ := CreateTeam_ok_inv h
    obtain ⟨hinv1, hmem1⟩ := Inv_fresh_team s name hinv hnone
    subst hs'
    exact foldl_addTeamMember_inv name members _ hinv1 ⟨[], hmem1⟩
  | setUserActive uid b u s2 h =>
    obtain ⟨u₀, hu, hueq, hs'⟩ := SetUserActive_ok_inv h
    subst hs'
    obtain ⟨hKN, hMN, hUK, hUS, hTS⟩ := hinv
    refine ⟨⟨hKN.1, keys_nodup_setKey _ hKN.2.1, hKN.2.2⟩, hMN, ?_, ?_, ?_⟩
    · intro p hp
      rcases mem_setKey hp with heq | hp'
      · subst heq
        have h1 : u.id = u₀.id := by rw [hueq]
        show u.id = uid
        rw [h1]
        exact hUK _ (lookupKey_mem hu)
      · exact hUK p hp'
    · intro p hp htn
      rcases mem_setKey hp with heq | hp'
      · subst heq
        have htn2 : u.teamName = u₀.teamName := by rw [hueq]
        show teamHasMember s u.teamName uid = true
        rw [htn2]
        refine hUS _ (lookupKey_mem hu) ?_
        rw [← htn2]
        exact htn
      · exact hUS p hp' htn
    · intro p hp hne2 w hw
      have h0 := hTS p hp hne2 w hw
      rw [userInTeam_true_iff] at h0 ⊢
      obtain ⟨uw, huw, htm⟩ := h0
      by_cases hwu : w = uid
      · subst hwu
        rw [huw] at hu
        injection hu with hu
        refine ⟨u, ?_, ?_⟩
        · show lookupKey (setKey s.users w u) w = some u
          exact lookupKey_setKey_self _ _ _
        · have h2 : u.teamName = u₀.teamName := by rw [hueq]
          rw [h2, ← hu]
          exact htm
      · refine ⟨uw, ?_, htm⟩
        show lookupKey (setKey s.users uid u) w = some uw
        rw [lookupKey_setKey_ne _ _ _ _ hwu]
        exact huw
  | createPullRequest input now shuffle pr₂ s2 hs h =>
    obtain ⟨author, mem, _, _, _, _, _, hs'⟩ := CreatePullRequest_ok_inv h
    subst hs'
    exact Inv_of_prs s _ hinv (keys_nodup_setKey _ hinv.1.2.2)
  | mergePullRequest prID2 now pr₂ s2 h =>
    obtain ⟨pr₀, hpr₀, hcase⟩ := MergePullRequest_ok_inv h
    rcases hcase with ⟨_, _, hs'⟩ | ⟨_, _, hs'⟩
    · subst hs'
      exact Inv_of_prs s _ hinv (keys_nodup_setKey _ hinv.1.2.2)
    · subst hs'
      exact hinv
  | reassignReviewer prID2 old pick r s2 h =>
    obtain ⟨pr₂, index, reviewer, mem, _, _, _, _, _, _, _, _, _, hs'⟩ :=
      ReassignReviewer_ok_inv h
    subst hs'
    exact Inv_of_prs s _ hinv (keys_nodup_setKey _ hinv.1.2.2)

/-- The fresh store satisfies the invariant. -/
theorem Inv_new : Inv Store.new := by
  refine ⟨⟨List.nodup_nil, List.nodup_nil, List.nodup_nil⟩, ?_, ?_, ?_, ?_⟩ <;>
    intro p hp <;> cases hp

/-- Every reachable store satisfies the invariant. -/
theorem reachable_inv {s : Store} (h : Reachable s) : Inv s := by
  unfold Reachable ReachableFrom at h
  induction h with
  | refl => exact Inv_new
  | tail _ hbc ih => exact step_preserves_inv hbc ih

/-! ### CreateTeam member-loop lemmas about single users -/

/-- `addTeamMember` leaves other users' records alone. -/
theorem addTeamMember_users_other (name : String) (s : Store)
    (m : TeamMemberInput) (uid : String) (hne : m.userID ≠ uid) :
    lookupKey (addTeamMember name s m).users uid = lookupKey s.users uid := by
  by_cases he : m.userID = ""
  · rw [addTeamMember_empty name s m he]
  · rw [addTeamMember_users_eq name s m he]
    obtain ⟨u₀, _, _, husers, _, _, _⟩ :=
      upsertUserLocked_spec s m.userID m.username name m.isActive
    rw [husers, lookupKey_setKey_ne _ _ _ _ (Ne.symm hne)]

/-- `addTeamMember` writes the entry's name/flag into the user's record. -/
theorem addTeamMember_users_self (name : String) (s : Store)
    (m : TeamMemberInput) (hne : m.userID ≠ "") :
    ∃ u, lookupKey (addTeamMember name s m).users m.userID = some u ∧
      u.username = m.username ∧ u.teamName = name ∧
      u.isActive = m.isActive := by
  rw [addTeamMember_users_eq name s m hne]
  obtain ⟨u₀, _, _, husers, _, _, _⟩ :=
    upsertUserLocked_spec s m.userID m.username name m.isActive
  rw [husers, lookupKey_setKey_self]
  exact ⟨_, rfl, rfl, rfl, rfl⟩

/-- Entries for other users never touch a given user's record, through the
whole loop. -/
theorem foldl_addTeamMember_users_nomatch (name uid : String) :
    ∀ (ms : List TeamMemberInput) (st : Store),
      (∀ m ∈ ms, m.userID ≠ uid) →
      lookupKey (ms.foldl (addTeamMember name) st).users uid =
        lookupKey st.users uid
  | [], _, _ => rfl
  | m :: ms, st, hall => by
    rw [List.foldl_cons,
      foldl_addTeamMember_users_nomatch name uid ms _
        (fun m' hm' => hall m' (List.mem_cons_of_mem _ hm')),
      addTeamMember_users_other name st m uid (hall m (List.mem_cons_self _ _))]

/-- After the whole loop, a user's record carries the data of the last
member entry bearing its id. -/
theorem foldl_addTeamMember_users_last (name uid : String) (huid : uid ≠ "") :
    ∀ (ms : List TeamMemberInput) (st : Store) (last : TeamMemberInput),
      (ms.filter (fun m => m.userID == uid)).getLast? = some last →
      ∃ u, lookupKey (ms.foldl (addTeamMember name) st).users uid = some u ∧
        u.username = last.username ∧ u.teamName = name ∧
        u.isActive = last.isActive
  | [], _, last, h => by simp at h
  | m :: ms, st, last, h => by
    rw [List.foldl_cons]
    cases hfm : ms.filter (fun m => m.userID == uid) with
    | nil =>
      rw [List.filter_cons] at h
      by_cases hm : (m.userID == uid) = true
      · rw [if_pos hm, hfm, List.getLast?_singleton] at h
        injection h with h
        subst h
        have heq : m.userID = uid := beq_iff_eq.mp hm
        have hne : m.userID ≠ "" := by
          rw [heq]
          exact huid
        have hno := foldl_addTeamMember_users_nomatch name uid ms
          (addTeamMember name st m) (fun m' hm' => by
            intro he2
            have hmm : m' ∈ ms.filter (fun m => m.userID == uid) :=
              List.mem_filter.mpr ⟨hm', by rw [beq_iff_eq]; exact he2⟩
            rw [hfm] at hmm
            cases hmm)
        rw [hno, ← heq]
        exact addTeamMember_users_self name st m hne
      · rw [if_neg hm, hfm] at h
        cases h
    | cons q qs =>
      have hlast2 : (ms.filter (fun m => m.userID == uid)).getLast? =
          some last := by
        rw [hfm]
        rw [List.filter_cons] at h
        by_cases hm : (m.userID == uid) = true
        · rw [if_pos hm, hfm, List.getLast?_cons_cons] at h
          exact h
        · rw [if_neg hm, hfm] at h
          exact h
      exact foldl_addTeamMember_users_last name uid huid ms _ last hlast2

/-- One member iteration grows the member set of the team being built by the
entry's id (when non-empty). -/
theorem addTeamMember_teams_name (name : String) (st : Store)
    (m : TeamMemberInput) (hne : m.userID ≠ "") (hk : UsersKeyed st)
    {mem₀ : List String} (h0 : lookupKey st.teams name = some mem₀) :
    lookupKey (addTeamMember name st m).teams name =
      some (insertMember mem₀ m.userID) := by
  obtain ⟨u₀, _, _, _, _, hnoch, hers⟩ := addTeamMember_spec name st m hne hk h0
  by_cases hc : u₀.teamName ≠ "" ∧ u₀.teamName ≠ name
  · cases hold : lookupKey st.teams u₀.teamName with
    | none =>
      rw [hnoch (Or.inr hold)]
      exact lookupKey_setKey_self _ _ _
    | some oldMem =>
      rw [hers oldMem hc.1 hc.2 hold]
      exact lookupKey_setKey_self _ _ _
  · have hc' : u₀.teamName = "" ∨ u₀.teamName = name := by
      rcases not_and_or.mp hc with h | h
      · exact Or.inl (not_not.mp h)
      · exact Or.inr (not_not.mp h)
    rw [hnoch (Or.inl hc')]
    exact lookupKey_setKey_self _ _ _

/-- Once an id is in the member set of the team being built, the rest of the
loop keeps it there. -/
theorem foldl_addTeamMember_mem_mono (name uid : String) :
    ∀ (ms : List TeamMemberInput) (st : Store), Inv st →
      ∀ mem₀, lookupKey st.teams name = some mem₀ → uid ∈ mem₀ →
      ∃ mem, lookupKey (ms.foldl (addTeamMember name) st).teams name =
        some mem ∧ uid ∈ mem
  | [], _, _, mem₀, h0, hin => ⟨mem₀, h0, hin⟩
  | m :: ms, st, hinv, mem₀, h0, hin => by
    rw [List.foldl_cons]
    obtain ⟨hinv1, _⟩ := addTeamMember_inv name st m hinv h0
    by_cases he : m.userID = ""
    · rw [addTeamMember_empty name st m he]
      exact foldl_addTeamMember_mem_mono name uid ms st hinv mem₀ h0 hin
    · have hnew := addTeamMember_teams_name name st m he hinv.2.2.1 h0
      exact foldl_addTeamMember_mem_mono name uid ms _ hinv1 _ hnew
        (mem_insertMember.mpr (Or.inr hin))

/-- A member entry with a given non-empty id puts that id into the member
set of the team being built, for good. -/
theorem foldl_addTeamMember_mem (name uid : String) (huid : uid ≠ "") :
    ∀ (ms : List TeamMemberInput) (st : Store), Inv st →
      ∀ mem₀, lookupKey st.teams name = some mem₀ →
      (∃ m ∈ ms, m.userID = uid) →
      ∃ mem, lookupKey (ms.foldl (addTeamMember name) st).teams name =
        some mem ∧ uid ∈ mem
  | [], _, _, _, _, hex => by simp at hex
  | m :: ms, st, hinv, mem₀, h0, hex => by
    rw [List.foldl_cons]
    obtain ⟨hinv1, hbind⟩ := addTeamMember_inv name st m hinv h0
    by_cases hm : m.userID = uid
    · have hne : m.userID ≠ "" := by
        rw [hm]
        exact huid
      have hnew := addTeamMember_teams_name name st m hne hinv.2.2.1 h0
      exact foldl_addTeamMember_mem_mono name uid ms _ hinv1 _ hnew
        (mem_insertMember.mpr (Or.inl hm.symm))
    · rcases hex with ⟨m', hm', heq⟩
      rcases List.mem_cons.mp hm' with heq2 | hm''
      · subst heq2
        exact absurd heq hm
      · obtain ⟨mem₁, hbind1⟩ := hbind
        exact foldl_addTeamMember_mem name uid huid ms _ hinv1 mem₁ hbind1
          ⟨m', hm'', heq⟩

/-! ### C3 — bidirectional team/user consistency -/

/-- C3 as stated is false: from a fresh store, `CreateTeam("", [u1])`
followed by `CreateTeam("T", [u1])` reaches a store where `u1`'s team field
is `T`, yet the member set of the team registered under the empty-string
name still contains `u1` — `upsertUserLocked` skips the removal step when
the user's previous team field is the empty string. -/
theorem teamUser_consistency_counterexample :
    Reachable cx2 ∧ ¬ (UserSide cx2 ∧ ClaimTeamSide cx2) := by
  constructor
  · have h1 : Step Store.new cx1 :=
      Step.createTeam Store.new "" [⟨"u1", "alice", true⟩] _ cx1 (by rfl)
    have h2 : Step cx1 cx2 :=
      Step.createTeam cx1 "T" [⟨"u1", "alice", true⟩] _ cx2 (by rfl)
    exact Relation.ReflTransGen.tail
      (Relation.ReflTransGen.tail Relation.ReflTransGen.refl h1) h2
  · decide

/-- C3 amended: in every reachable store, every user whose team field is
non-empty refers to an existing team whose member set contains the user's
id, and every team with a non-empty name contains only user ids whose team
field names it; moreover a successful `CreateTeam` that lists an existing
user adds it to the new team's member set, and the user is absent from the
member set of any team other than the new one whose name is non-empty — in
particular from its previous team when that team's name is non-empty.
(Teams registered under the empty-string name are exempt, which is exactly
what the counterexample exploits.) -/
theorem teamUser_consistency_amended (s : Store) (hreach : Reachable s) :
    (UserSide s ∧ TeamSide s) ∧
    (∀ name members t s' uid A,
      CreateTeam s name members = (.ok t, s') →
      uid ≠ "" →
      (∃ m ∈ members, m.userID = uid) →
      (∃ u, lookupKey s.users uid = some u ∧ u.teamName = A) →
      (∃ mem, lookupKey s'.teams name = some mem ∧ uid ∈ mem) ∧
      (A ≠ "" → A ≠ name → ∀ memA, lookupKey s'.teams A = some memA →
        uid ∉ memA)) := by
  have hinv := reachable_inv hreach
  refine ⟨⟨hinv.2.2.2.1, hinv.2.2.2.2⟩, ?_⟩
  intro name members t s' uid A h huid hex hprev
  obtain ⟨hnone, hs'⟩ := CreateTeam_ok_inv h
  obtain ⟨hinv1, hmem1⟩ := Inv_fresh_team s name hinv hnone
  subst hs'
  have hinv2 := foldl_addTeamMember_inv name members _ hinv1 ⟨[], hmem1⟩
  constructor
  · exact foldl_addTeamMember_mem name uid huid members _ hinv1 [] hmem1 hex
  · intro hA hA2 memA hmemA hcontra
    have hts := hinv2.2.2.2.2 _ (lookupKey_mem hmemA) hA uid hcontra
    rw [userInTeam_true_iff] at hts
    obtain ⟨uw, huw, htm⟩ := hts
    have hlast : ∃ last,
        (members.filter (fun m => m.userID == uid)).getLast? = some last := by
      rcases hex with ⟨m, hm, heq⟩
      have hmf : m ∈ members.filter (fun m => m.userID == uid) :=
        List.mem_filter.mpr ⟨hm, by rw [beq_iff_eq]; exact heq⟩
      have hnonnil : members.filter (fun m => m.userID == uid) ≠ [] := by
        intro hnil
        rw [hnil] at hmf
        cases hmf
      exact Option.isSome_iff_exists.mp (List.getLast?_isSome.mpr hnonnil)
    obtain ⟨last, hlast⟩ := hlast
    obtain ⟨u, hu, _, hteam, _⟩ :=
      foldl_addTeamMember_users_last name uid huid members _ last hlast
    rw [huw] at hu
    injection hu with hu
    rw [hu] at htm
    rw [hteam] at htm
    exact hA2 htm.symm

/-- Witness for the amended C3: moving `u1` from team `A` to team `B` puts
it in `B`'s member set and out of `A`'s. -/
theorem teamUser_consistency_amended_witness :
    (UserSide wsA ∧ TeamSide wsA) ∧
    (∃ mem, lookupKey wsB.teams "B" = some mem ∧ "u1" ∈ mem) ∧
    "u1" ∉ ([] : List String) := by
  have hreach : Reachable wsA :=
    Relation.ReflTransGen.tail Relation.ReflTransGen.refl
      (Step.createTeam Store.new "A" [⟨"u1", "n", true⟩] _ wsA (by rfl))
  have hmain := teamUser_consistency_amended wsA hreach
  have hmove := hmain.2 "B" [⟨"u1", "n", true⟩] _
    wsB "u1" "A" (by rfl) (by decide)
    ⟨⟨"u1", "n", true⟩, by decide, rfl⟩
    ⟨⟨"u1", "n", "A", true⟩, by decide, rfl⟩
  exact ⟨hmain.1, hmove.1, hmove.2 (by decide) (by decide) [] (by decide)⟩

/-! ### C10 — duplicate member entries, last one wins -/

/-- C10: when a successful `CreateTeam` call's member list has entries with
the same non-empty user id, the created team's member set holds that id
exactly once, and the user's record carries the display name and active
flag of the last such entry in input order (later entries overwrite earlier
ones), with its team field set to the new team. -/
theorem createTeam_last_entry_wins (s : Store) (name : String)
    (members : List TeamMemberInput) (t : Team) (s' : Store) (uid : String)
    (last : TeamMemberInput) (hinv : Inv s)
    (h : CreateTeam s name members = (.ok t, s')) (huid : uid ≠ "")
    (hlast : (members.filter (fun m => m.userID == uid)).getLast? =
      some last) :
    ∃ mem u, lookupKey s'.teams name = some mem ∧ List.count uid mem = 1 ∧
      lookupKey s'.users uid = some u ∧ u.username = last.username ∧
      u.isActive = last.isActive ∧ u.teamName = name := by
  obtain ⟨hnone, hs'⟩ := CreateTeam_ok_inv h
  obtain ⟨hinv1, hmem1⟩ := Inv_fresh_team s name hinv hnone
  subst hs'
  have hex : ∃ m ∈ members, m.userID = uid := by
    have hlmem := List.mem_of_getLast?_eq_some hlast
    rw [List.mem_filter] at hlmem
    exact ⟨last, hlmem.1, beq_iff_eq.mp hlmem.2⟩
  obtain ⟨mem, hmem, hin⟩ :=
    foldl_addTeamMember_mem name uid huid members _ hinv1 [] hmem1 hex
  obtain ⟨u, hu, h1, h2, h3⟩ :=
    foldl_addTeamMember_users_last name uid huid members _ last hlast
  have hinv2 := foldl_addTeamMember_inv name members _ hinv1 ⟨[], hmem1⟩
  have hnd : mem.Nodup := hinv2.2.1 _ (lookupKey_mem hmem)
  exact ⟨mem, u, hmem, List.count_eq_one_of_mem hnd hin, hu, h1, h3, h2⟩

/-- Witness for C10: a member list naming `u1` twice; the team lists `u1`
once and the record keeps the second entry's name and flag. -/
theorem createTeam_last_entry_wins_witness :
    ∃ mem u, lookupKey w10Store.teams "core" = some mem ∧
      List.count "u1" mem = 1 ∧
      lookupKey w10Store.users "u1" = some u ∧ u.username = "second" ∧
      u.isActive = false ∧ u.teamName = "core" :=
  createTeam_last_entry_wins Store.new "core"
    [⟨"u1", "first", true⟩, ⟨"u2", "x", true⟩, ⟨"u1", "second", false⟩]
    _ w10Store "u1"
    ⟨"u1", "second", false⟩ Inv_new (by rfl) (by decide) (by rfl)

end GoDraw
